import Mathlib

/-!
Verification development for the hackerstats concurrent crawl-and-ingest
engine (`src/backend/main.py`, with one graph-write variant from
`src/backend/hackathon.py`).

The embedding is shallow and executable:
* Python dicts pushed onto the typed queues become the `Content` structure,
  the task dicts built by `get_crawler_task` become `TaskObj` values living
  in an explicit heap (they are mutable shared objects in the source: the
  parser overwrites their `done_callback` field).
* the three typed queues plus the to-parse queue, the per-type
  `visited` entries (`lock` / `local` / `now`), the `memory` dict and the
  per-queue unfinished-task counters form the state `St` of a small-step
  transition system; one step is one atomic region of the source
  (queue poll, lock acquire, membership check, fetch, enqueue,
  `done_callback()`, lock release, parser dequeue, parser body).
* Python string slicing/splitting is embedded over `List Char` with
  Python semantics (`str.split` keeps empty parts, negative indices wrap,
  out-of-range subscripts raise `IndexError`, modelled by `Except`).
* The neo4j store is external; the Cypher queries in the source are
  embedded by their documented MERGE/CREATE semantics over an explicit
  `GraphStore`.
-/

namespace HackerStats

/-- The three on-disk folders / entity types ('hackers', 'devposts',
'hackathons'); `task['folder']` in the source. -/
inductive Folder
| hackers
| devposts
| hackathons
deriving DecidableEq

/-- The four queues of `__main__`: `q_hacker`, `q_devpost`, `q_hackathon`,
`q_todo`.  A `QId` identifies whose `task_done` a `done_callback` is. -/
inductive QId
| hacker
| devpost
| hackathon
| todo
deriving DecidableEq

/-- The `'from'` provenance dict (`{'name': …, 'folder': …}`). -/
structure Prov where
  name : String
  folder : String
deriving DecidableEq

/-- `NO_FROM = {'name': 'Unknown', 'folder': 'Unknown'}` (main.py line 15). -/
def NO_FROM : Prov := ⟨"Unknown", "Unknown"⟩

/-- A dict sitting on one of the three typed input queues:
`{'name': …, 'from'?: …, 'page_number'?: …}`. -/
structure Content where
  name : String
  prov : Option Prov := none
  pageNumber : Option Nat := none
deriving DecidableEq

/-- An element of a typed queue: either the `NULL_CMD = -1` stop sentinel or
a content dict. -/
inductive QItem
| sentinel
| item (c : Content)
deriving DecidableEq

/-- The task dict built by `get_crawler_task` (main.py lines 31-37, 47-53,
64-70).  `doneCallback` models the bound method `q_*.task_done` stored under
`'done_callback'`; it is later overwritten by `get_parser_task`. -/
structure TaskObj where
  url : String
  folder : Folder
  name : String
  prov : Prov
  doneCallback : QId
deriving DecidableEq

/-- Result of one `get_crawler_task` call: `{'error': NULL_CMD}`,
`{'error': NO_TASK}`, a task dict, or the uncaught `TypeError` raised by
`content['name']` when the sentinel `-1` is drawn from `q_devpost` or
`q_hackathon` (those two branches never compare against `NULL_CMD`). -/
inductive CrawlResult
| stop
| noTask
| task (t : TaskObj)
| typeErr
deriving DecidableEq

/-- `content['from'] if 'from' in content else NO_FROM`. -/
def provOf (c : Content) : Prov := c.prov.getD NO_FROM

/-- URL built for a hackathon task (main.py lines 60-62):
`https://www.{name}.devpost.com` plus `?page={n}` when `'page_number'` is
present. -/
def hackathonURL (c : Content) : String :=
  let base := "https://www." ++ c.name ++ ".devpost.com"
  match c.pageNumber with
  | none => base
  | some n => base ++ "?page=" ++ toString n

/-- `get_crawler_task(q_hacker, q_devpost, q_hackathon)` (main.py lines
21-74).  Polls the three queues in order; each successful `get` removes the
head of that queue.  Only the `q_hacker` branch compares the drawn value
against `NULL_CMD`; in the other two branches a drawn sentinel hits
`content['name']` (an `int` subscript) and raises `TypeError`.  Returns the
result together with the three updated queues. -/
def get_crawler_task :
    List QItem → List QItem → List QItem →
    CrawlResult × List QItem × List QItem × List QItem
  | .sentinel :: qh, qd, qk => (.stop, qh, qd, qk)
  | .item c :: qh, qd, qk =>
      (.task ⟨"https://www.devpost.com/" ++ c.name, .hackers, c.name,
        provOf c, .hacker⟩, qh, qd, qk)
  | [], .sentinel :: qd, qk => (.typeErr, [], qd, qk)
  | [], .item c :: qd, qk =>
      (.task ⟨"https://www.devpost.com/software/" ++ c.name, .devposts,
        c.name, provOf c, .devpost⟩, [], qd, qk)
  | [], [], .sentinel :: qk => (.typeErr, [], [], qk)
  | [], [], .item c :: qk =>
      (.task ⟨hackathonURL c, .hackathons, c.name, provOf c, .hackathon⟩,
        [], [], qk)
  | [], [], [] => (.noTask, [], [], [])

/-! ## Python string semantics, embedded over `List Char` -/

/-- Page content / line fragments are plain character lists. -/
abbrev Str := List Char

/-- Python `sub in s` (substring test). -/
def pyIn (sub : Str) : Str → Bool
  | [] => sub.isEmpty
  | c :: rest => sub.isPrefixOf (c :: rest) || pyIn sub rest

/-- Fuel-driven worker for `str.split(sep)`: scans left to right, a match of
`sep` closes the current part and skips over `sep`; empty parts are kept.
One unit of fuel is spent per scanned position; `pySplit` supplies
`s.length + 1`, always enough for a non-empty separator. -/
def pySplitF (sep : Str) : Nat → Str → Str → List Str
  | _, acc, [] => [acc.reverse]
  | 0, acc, s => [acc.reverse ++ s]
  | fuel + 1, acc, c :: rest =>
    if sep.isPrefixOf (c :: rest) then
      acc.reverse :: pySplitF sep fuel [] ((c :: rest).drop sep.length)
    else
      pySplitF sep fuel (c :: acc) rest

/-- Python `s.split(sep)` for a non-empty separator (every separator the
extractors use is non-empty; Python raises on an empty one). -/
def pySplit (s sep : Str) : List Str := pySplitF sep (s.length + 1) [] s

/-- Python subscript `l[i]` with negative-index wrapping; `none` models an
uncaught `IndexError`. -/
def pyGet? (l : List α) (i : Int) : Option α :=
  if 0 ≤ i then l.get? i.toNat
  else if i.natAbs ≤ l.length then l.get? (l.length - i.natAbs)
  else none

/-- Python slice `s[:-2]`. -/
def pyDropLast2 (s : Str) : Str := s.take (s.length - 2)

/-- The whitespace set stripped by Python `str.strip()`. -/
def pyIsSpace (c : Char) : Bool :=
  c == ' ' || c == '\t' || c == '\n' || c == '\r' ||
  c == Char.ofNat 11 || c == Char.ofNat 12

/-- Python `s.strip()`. -/
def pyStrip (s : Str) : Str :=
  ((s.dropWhile pyIsSpace).reverse.dropWhile pyIsSpace).reverse

/-- The only exception the extractor embeddings can raise. -/
inductive PyErr
| indexError
deriving DecidableEq

/-! ## `parse_hacker` (main.py lines 134-188), pure extraction part -/

/-- Locals of `parse_hacker`'s scan loop: `displayName`, `socialURLs`,
`devposts`. -/
structure HackerInfo where
  displayName : Str
  socialURLs : List Str
  devposts : List Str
deriving DecidableEq

/-- One iteration of `parse_hacker`'s `for index, line in enumerate(lines)`
body (lines 143-158).  Each branch ends in `continue`, so the three `if`s
chain like `elif`s. -/
def hackerLine (username : String) (lines : List Str) (ix : Nat) (line : Str)
    (st : HackerInfo) : Except PyErr HackerInfo :=
  if pyIn ("<small>(" ++ username ++ ")").data line then
    match pyGet? lines ((ix : Int) - 1) with
    | none => .error .indexError
    | some prev => .ok { st with displayName := pyStrip prev }
  else if pyIn "<a target=\"_blank\" rel=\"nofollow\" href=\"http".data line then
    match pyGet? (pySplit line "href=\"".data) 1 with
    | none => .error .indexError
    | some part =>
      .ok { st with socialURLs := st.socialURLs ++ [pyDropLast2 part] }
  else if pyIn "<a class=\"block-wrapper-link fade link-to-software\" href=\"".data line then
    match pyGet? (pySplit line "href=\"".data) 1 with
    | none => .error .indexError
    | some part =>
      match pyGet? (pySplit (pyDropLast2 part) "/".data) (-1) with
      | none => .error .indexError
      | some d => .ok { st with devposts := st.devposts ++ [d] }
  else .ok st

/-- The scan loop of `parse_hacker`, index threaded explicitly. -/
def hackerLoop (username : String) (lines : List Str) :
    Nat → List Str → HackerInfo → Except PyErr HackerInfo
  | _, [], st => .ok st
  | ix, line :: rest, st =>
    match hackerLine username lines ix line st with
    | .error e => .error e
    | .ok st' => hackerLoop username lines (ix + 1) rest st'

/-- Pure part of `parse_hacker`: `lines = content.split('\n')` then the scan
loop, starting from `displayName = "undefined"`, empty `socialURLs` and
`devposts`. -/
def parse_hacker_extract (username : String) (content : Str) :
    Except PyErr HackerInfo :=
  let lines := pySplit content "\n".data
  hackerLoop username lines 0 lines ⟨"undefined".data, [], []⟩

/-! ## `parse_devpost` (main.py lines 197-264), pure extraction part -/

/-- Locals of `parse_devpost`'s scan loop; `hackers` is the insertion-ordered
dict `username ↦ displayName`. -/
structure DevpostInfo where
  hackathonName : Str
  hackathonDisplayName : Str
  hackers : List (Str × Str)
deriving DecidableEq

/-- Python `key in dict`. -/
def dictHasKey (d : List (Str × Str)) (k : Str) : Bool :=
  d.any (fun p => p.1 == k)

/-- The `"software-list-content"` branch of `parse_devpost` (lines 225-235);
it reads `lines[index+2]` and slices it, each subscript a potential
`IndexError`. -/
def devpostLineB (lines : List Str) (ix : Nat) (line : Str)
    (st : DevpostInfo) : Except PyErr DevpostInfo :=
  if pyIn "software-list-content".data line then
    match pyGet? lines ((ix : Int) + 2) with
    | none => .error .indexError
    | some l2 =>
      match pyGet? (pySplit l2 "<a href=\"".data) 1 with
      | none => .error .indexError
      | some p1 =>
        match pyGet? (pySplit p1 "\">".data) 0 with
        | none => .error .indexError
        | some p2 =>
          match pyGet? (pySplit p2 "//".data) 1 with
          | none => .error .indexError
          | some p3 =>
            match pyGet? (pySplit p3 ".".data) 0 with
            | none => .error .indexError
            | some hname =>
              match pyGet? (pySplit l2 "\">".data) 1 with
              | none => .error .indexError
              | some q1 =>
                match pyGet? (pySplit q1 "</a>".data) 0 with
                | none => .error .indexError
                | some hdn =>
                  .ok { st with hackathonName := hname,
                                hackathonDisplayName := hdn }
  else .ok st

/-- One iteration of `parse_devpost`'s scan loop (lines 205-235).  In the
user-profile branch `hackerDisplayName = line.split('">')[1]…` is computed
before the dict-membership test and can raise `IndexError`; when the username
is already present there is no `continue`, so control falls through to the
`"software-list-content"` test on the same line. -/
def devpostLine (lines : List Str) (ix : Nat) (line : Str)
    (st : DevpostInfo) : Except PyErr DevpostInfo :=
  if pyIn "<a class=\"user-profile-link\" href=\"".data line &&
      !(pyIn "<img alt=".data line) then
    match pyGet? (pySplit line "<a class=\"user-profile-link\" href=\"".data) 1 with
    | none => .error .indexError
    | some part =>
      match pyGet? (pySplit part "\">".data) 0 with
      | none => .error .indexError
      | some hackerURL =>
        match pyGet? (pySplit hackerURL "/".data) (-1) with
        | none => .error .indexError
        | some username =>
          match pyGet? (pySplit line "\">".data) 1 with
          | none => .error .indexError
          | some dn0 =>
            match pyGet? (pySplit dn0 "</a>".data) 0 with
            | none => .error .indexError
            | some displayName =>
              if dictHasKey st.hackers username then
                devpostLineB lines ix line st
              else
                .ok { st with hackers := st.hackers ++ [(username, displayName)] }
  else devpostLineB lines ix line st

/-- The scan loop of `parse_devpost`. -/
def devpostLoop (lines : List Str) :
    Nat → List Str → DevpostInfo → Except PyErr DevpostInfo
  | _, [], st => .ok st
  | ix, line :: rest, st =>
    match devpostLine lines ix line st with
    | .error e => .error e
    | .ok st' => devpostLoop lines (ix + 1) rest st'

/-- Pure part of `parse_devpost`, starting from
`hackathonName = hackathonDisplayName = "undefined"` and an empty dict. -/
def parse_devpost_extract (content : Str) : Except PyErr DevpostInfo :=
  let lines := pySplit content "\n".data
  devpostLoop lines 0 lines ⟨"undefined".data, "undefined".data, []⟩

/-! ## The concurrent engine as a small-step transition system

One step is one atomic region of `crawler` / `parser` (main.py lines 77-116
and 266-288).  The `queue.Queue` operations are internally locked, and the
statements between them interleave freely; each program counter below marks
one such region.  Task dicts are shared mutable objects, modelled by a heap
indexed by creation order (`get_parser_task` mutates `'done_callback'` in
place). -/

/-- One `visited[folder]` entry: `{'lock': …, 'local': …, 'now': …}`.
`lock` holds the index of the crawler inside the `with` block, if any. -/
structure VEntry where
  lock : Option Nat := none
  localS : List String := []
  nowS : List String := []
deriving DecidableEq

/-- Crawler program counter.  `idle` is the loop head (line 80);
`hasTask` is before `with visited[…]['lock']` (line 89); `inCS` before the
`local` membership test (line 92); `doFetch` before lines 95-101;
`checkNow` before the `now` membership test (line 104); `enq` before lines
105-109; `ack` before `task['done_callback']()` (line 112); `unlock` before
the `with` block exit.  `stopped` is after `driver.quit()`; `dead` is a
thread killed by an uncaught exception. -/
inductive CPc
| idle
| hasTask (tid : Nat)
| inCS (tid : Nat)
| doFetch (tid : Nat)
| checkNow (tid : Nat)
| enq (tid : Nat)
| ack (tid : Nat)
| unlock (tid : Nat)
| stopped
| dead
deriving DecidableEq

/-- Parser program counter: loop head (line 268) or inside the body working
on the task `tid` (lines 276-283). -/
inductive PPc
| idle
| work (tid : Nat)
| dead
deriving DecidableEq

/-- Observable events, newest first in `St.log`.  `ackC` is the crawler's
`task['done_callback']()` (line 112) with the queue it actually hit and
whether the per-type lock was held at that moment; `ackP` is the
`task['done_callback']()` ending `parse_hacker`/`parse_devpost`;
`logNoTask` is the `logError` of line 86; `printAdding` the progress print
of line 95; node/edge events are the neo4j writes. -/
inductive Event
| fetch (f : Folder) (name : String)
| push (tid : Nat) (f : Folder) (name : String)
| ackC (i : Nat) (q : QId) (held : Bool)
| ackP (j : Nat) (q : QId) (tid : Nat)
| printAdding (f : Folder) (name : String)
| logNoTask (i : Nat)
| driverQuit (i : Nat)
| nodeHacker (name : String)
| nodeDevpost (name : String)
| edgeWrite (hacker devpost : String)
deriving DecidableEq

/-- Global state: the four queues, per-queue unfinished counters (a
`Queue.put` increments, a successful `task_done` decrements; `join` returns
exactly when the counter is zero), the task heap, the three `visited`
entries, the `memory` dict, the worker pools, and the event log. -/
structure St where
  qHacker : List QItem
  qDevpost : List QItem
  qHackathon : List QItem
  qTodo : List Nat
  uHacker : Nat
  uDevpost : Nat
  uHackathon : Nat
  uTodo : Nat
  heap : List TaskObj
  vHackers : VEntry
  vDevposts : VEntry
  vHackathons : VEntry
  memory : List (String × Str)
  crawlers : List CPc
  parsers : List PPc
  log : List Event
deriving DecidableEq

def vOf (s : St) : Folder → VEntry
  | .hackers => s.vHackers
  | .devposts => s.vDevposts
  | .hackathons => s.vHackathons

def setV (s : St) : Folder → VEntry → St
  | .hackers, v => { s with vHackers := v }
  | .devposts, v => { s with vDevposts := v }
  | .hackathons, v => { s with vHackathons := v }

def uOf (s : St) : QId → Nat
  | .hacker => s.uHacker
  | .devpost => s.uDevpost
  | .hackathon => s.uHackathon
  | .todo => s.uTodo

/-- Successful `task_done()` on queue `q`. -/
def decU (s : St) : QId → St
  | .hacker => { s with uHacker := s.uHacker - 1 }
  | .devpost => { s with uDevpost := s.uDevpost - 1 }
  | .hackathon => { s with uHackathon := s.uHackathon - 1 }
  | .todo => { s with uTodo := s.uTodo - 1 }

/-- Python `set.add` on the modelled name sets. -/
def addName (l : List String) (n : String) : List String :=
  if n ∈ l then l else n :: l

/-- Python dict assignment `m[k] = v`. -/
def minsert (m : List (String × Str)) (k : String) (v : Str) :
    List (String × Str) :=
  match m with
  | [] => [(k, v)]
  | (k', v') :: rest =>
    if k' == k then (k, v) :: rest else (k', v') :: minsert rest k v

/-- Python `del m[k]`. -/
def merase (m : List (String × Str)) (k : String) : List (String × Str) :=
  m.filter (fun p => !(p.1 == k))

def setC (s : St) (i : Nat) (pc : CPc) : St :=
  { s with crawlers := s.crawlers.set i pc }

def setP (s : St) (j : Nat) (pc : PPc) : St :=
  { s with parsers := s.parsers.set j pc }

def folderStr : Folder → String
  | .hackers => "hackers"
  | .devposts => "devposts"
  | .hackathons => "hackathons"

/-- One atomic region of `crawler` by worker `i`.  `fetch` is the external
`driver.get`/`page_source` collaborator (`none` = driver error); `readFile`
is the `open(get_filepath(task)).read()` of line 106. -/
def crawlStep (fetch : String → Option Str) (readFile : Folder → String → Str)
    (s : St) (i : Nat) : St :=
  match s.crawlers.get? i with
  | none => s
  | some .stopped => s
  | some .dead => s
  | some .idle =>
    match get_crawler_task s.qHacker s.qDevpost s.qHackathon with
    | (r, qh, qd, qk) =>
      let s1 : St := { s with qHacker := qh, qDevpost := qd, qHackathon := qk }
      match r with
      | .stop => setC { s1 with log := .driverQuit i :: s1.log } i .stopped
      | .typeErr => setC s1 i .dead
      | .noTask => { s1 with log := .logNoTask i :: s1.log }
      | .task t => setC { s1 with heap := s1.heap ++ [t] } i (.hasTask s1.heap.length)
  | some (.hasTask tid) =>
    match s.heap.get? tid with
    | none => s
    | some t =>
      match (vOf s t.folder).lock with
      | some _ => s
      | none =>
        setC (setV s t.folder { vOf s t.folder with lock := some i }) i (.inCS tid)
  | some (.inCS tid) =>
    match s.heap.get? tid with
    | none => s
    | some t =>
      if t.name ∈ (vOf s t.folder).localS then setC s i (.checkNow tid)
      else setC s i (.doFetch tid)
  | some (.doFetch tid) =>
    match s.heap.get? tid with
    | none => s
    | some t =>
      let s1 : St := { s with log := .printAdding t.folder t.name :: s.log }
      match fetch t.url with
      | none =>
        setC (setV s1 t.folder { vOf s1 t.folder with lock := none }) i .dead
      | some content =>
        let s2 : St := { s1 with memory := minsert s1.memory t.name content,
                                 log := .fetch t.folder t.name :: s1.log }
        setC (setV s2 t.folder
          { vOf s2 t.folder with
              localS := addName (vOf s2 t.folder).localS t.name }) i (.checkNow tid)
  | some (.checkNow tid) =>
    match s.heap.get? tid with
    | none => s
    | some t =>
      if t.name ∈ (vOf s t.folder).nowS then setC s i (.ack tid)
      else setC s i (.enq tid)
  | some (.enq tid) =>
    match s.heap.get? tid with
    | none => s
    | some t =>
      let s1 : St :=
        match List.lookup t.name s.memory with
        | none => { s with memory := minsert s.memory t.name (readFile t.folder t.name) }
        | some _ => s
      let s2 : St := { s1 with qTodo := s1.qTodo ++ [tid], uTodo := s1.uTodo + 1,
                               log := .push tid t.folder t.name :: s1.log }
      setC (setV s2 t.folder
        { vOf s2 t.folder with
            nowS := addName (vOf s2 t.folder).nowS t.name }) i (.ack tid)
  | some (.ack tid) =>
    match s.heap.get? tid with
    | none => s
    | some t =>
      if uOf s t.doneCallback = 0 then
        setC (setV s t.folder { vOf s t.folder with lock := none }) i .dead
      else
        setC { decU s t.doneCallback with
          log := .ackC i t.doneCallback
            (decide ((vOf s t.folder).lock = some i)) :: s.log }
          i (.unlock tid)
  | some (.unlock tid) =>
    match s.heap.get? tid with
    | none => s
    | some t =>
      setC (setV s t.folder { vOf s t.folder with lock := none }) i .idle

/-- The `task['done_callback']()` ending `parse_hacker` / `parse_devpost`
(lines 188, 264); reads the dict's current callback (always `q_todo.task_done`
after `get_parser_task`'s overwrite).  A `task_done` on a queue with no
unfinished tasks raises `ValueError`, killing the thread. -/
def finishAck (s : St) (j : Nat) (tid : Nat) : St :=
  match s.heap.get? tid with
  | none => setP s j .dead
  | some t =>
    let q := t.doneCallback
    if uOf s q = 0 then setP s j .dead
    else setP { decU s q with log := .ackP j q tid :: s.log } j .idle

/-- One atomic region of `parser` by worker `j`.  `idle` runs
`get_parser_task` (pop `q_todo`, overwrite `'done_callback'` with
`q_todo.task_done`); `work` runs lines 276-283: read and delete
`memory[name]`, then dispatch on the folder — note there is no
`'hackathons'` branch (it is commented out), so hackathon tasks get no
extractor, no graph write, no enqueue, and no acknowledgement. -/
def parseStep (s : St) (j : Nat) : St :=
  match s.parsers.get? j with
  | none => s
  | some .dead => s
  | some .idle =>
    match s.qTodo with
    | [] => s
    | tid :: rest =>
      match s.heap.get? tid with
      | none => s
      | some t =>
        setP { s with qTodo := rest,
                      heap := s.heap.set tid { t with doneCallback := .todo } }
          j (.work tid)
  | some (.work tid) =>
    match s.heap.get? tid with
    | none => s
    | some t =>
      match List.lookup t.name s.memory with
      | none => setP s j .dead
      | some content =>
        let s1 : St := { s with memory := merase s.memory t.name }
        match t.folder with
        | .hackathons => setP s1 j .idle
        | .hackers =>
          match parse_hacker_extract t.name content with
          | .error _ => setP s1 j .dead
          | .ok info =>
            let newItems := info.devposts.map (fun d =>
              QItem.item ⟨String.mk d, some ⟨t.name, folderStr t.folder⟩, none⟩)
            let s4 : St := { s1 with
              log := (info.devposts.map
                  (fun d => Event.edgeWrite t.name (String.mk d))).reverse ++
                (.nodeHacker t.name :: s1.log),
              qDevpost := s1.qDevpost ++ newItems,
              uDevpost := s1.uDevpost + newItems.length }
            finishAck s4 j tid
        | .devposts =>
          match parse_devpost_extract content with
          | .error _ => setP s1 j .dead
          | .ok info =>
            let newItems := info.hackers.map (fun p =>
              QItem.item ⟨String.mk p.1, some ⟨t.name, folderStr t.folder⟩, none⟩)
            let s4 : St := { s1 with
              log := (info.hackers.map
                  (fun p => Event.edgeWrite (String.mk p.1) t.name)).reverse ++
                (.nodeDevpost t.name :: s1.log),
              qHacker := s1.qHacker ++ newItems,
              uHacker := s1.uHacker + newItems.length }
            finishAck s4 j tid

/-- A scheduling decision: which worker runs its next atomic region. -/
inductive Step
| crawl (i : Nat)
| parse (j : Nat)
deriving DecidableEq

def step (fetch : String → Option Str) (readFile : Folder → String → Str)
    (s : St) : Step → St
  | .crawl i => crawlStep fetch readFile s i
  | .parse j => parseStep s j

/-- Run a schedule. -/
def run (fetch : String → Option Str) (readFile : Folder → String → Str)
    (s : St) (steps : List Step) : St :=
  steps.foldl (step fetch readFile) s

/-- Start state of `__main__` (lines 310-349), generalized over the seed
contents of the three typed queues and the disk listings that initialize the
`local` sets; 3 crawlers, 4 parsers, all idle.  Each seed put has already
incremented its queue's unfinished counter. -/
def initSt (qh qd qk : List QItem) (lH lD lK : List String) : St :=
  { qHacker := qh, qDevpost := qd, qHackathon := qk, qTodo := []
    uHacker := qh.length, uDevpost := qd.length, uHackathon := qk.length,
    uTodo := 0
    heap := []
    vHackers := { lock := none, localS := lH, nowS := [] }
    vDevposts := { lock := none, localS := lD, nowS := [] }
    vHackathons := { lock := none, localS := lK, nowS := [] }
    memory := []
    crawlers := [.idle, .idle, .idle]
    parsers := [.idle, .idle, .idle, .idle]
    log := [] }

/-- The concrete seeding of `__main__` line 349:
`q_hacker.put({'name': 'isaacchacko'})`. -/
def mainInit (lH lD lK : List String) : St :=
  initSt [.item ⟨"isaacchacko", none, none⟩] [] [] lH lD lK

/-! ## Graph writes (C4)

The store itself is external (neo4j).  The Cypher queries sent by the source
are embedded by their documented semantics: `MERGE` on a node pattern matches
a node with exactly that label and property map and creates it only when the
match is empty; `MERGE` on a relationship pattern likewise; `CREATE` on a
relationship pattern always creates.  Nodes and relationships are kept in
creation order, as multisets. -/

/-- A `(:Hacker {name, displayName, socialURLs})` node. -/
structure HackerNode where
  name : String
  displayName : Str
  socialURLs : List Str
deriving DecidableEq

/-- A `(:Devpost {name, hackathonName, hackathonDisplayName})` node. -/
structure DevpostNode where
  name : String
  hackathonName : Str
  hackathonDisplayName : Str
deriving DecidableEq

structure GraphStore where
  hackerNodes : List HackerNode
  devpostNodes : List DevpostNode
  edges : List (String × String)
deriving DecidableEq

/-- `MERGE (:Hacker {name: …, displayName: …, socialURLs: …})`
(main.py line 169). -/
def mergeHackerNode (g : GraphStore) (n : HackerNode) : GraphStore :=
  if n ∈ g.hackerNodes then g
  else { g with hackerNodes := g.hackerNodes ++ [n] }

/-- `MERGE (:Devpost {name: …, hackathonName: …, hackathonDisplayName: …})`
(main.py line 248). -/
def mergeDevpostNode (g : GraphStore) (n : DevpostNode) : GraphStore :=
  if n ∈ g.devpostNodes then g
  else { g with devpostNodes := g.devpostNodes ++ [n] }

/-- main.py `generate_connection` (lines 190-195): `MATCH` hacker and devpost
by name, then `MERGE (h)-[:CONTRIBUTED_TO]->(d)` — the edge is created only
when the match succeeds and no such edge exists yet. -/
def generate_connection (g : GraphStore) (hacker devpost : String) :
    GraphStore :=
  if g.hackerNodes.any (fun n => n.name == hacker) &&
      g.devpostNodes.any (fun d => d.name == devpost) then
    if (hacker, devpost) ∈ g.edges then g
    else { g with edges := g.edges ++ [(hacker, devpost)] }
  else g

/-- hackathon.py `generate_connection` (lines 192-199): same `MATCH`, but
`CREATE (h)-[:CONTRIBUTED_TO]->(d)` — a new edge is appended on every call
whose match succeeds. -/
def generate_connection_hackathon (g : GraphStore) (hacker devpost : String) :
    GraphStore :=
  if g.hackerNodes.any (fun n => n.name == hacker) &&
      g.devpostNodes.any (fun d => d.name == devpost) then
    { g with edges := g.edges ++ [(hacker, devpost)] }
  else g

/-! ## Crash recovery (C8)

`__main__` lines 334-375: the worker spawning, seeding and joining sit in a
`try:`; `except OSError:` and `except KeyboardInterrupt:` both run
`for i in visited: del visited[i]['lock']` and then pickle `visited`; the
normal path writes nothing.  A `visited` entry is embedded as the Python
dict it is — an ordered map from string keys to either a lock object or a
set of names — so that "the serialized snapshot contains no lock" is a
statement about the data actually pickled. -/

/-- A value of the inner `visited[folder]` dict: a `threading.Lock` object or
a set of names. -/
inductive VisitedVal
| lockV
| namesV (names : List String)
deriving DecidableEq

/-- The dict `{'lock': …, 'local': …, 'now': …}` for one entry. -/
def visitedDict (e : VEntry) : List (String × VisitedVal) :=
  [("lock", .lockV), ("local", .namesV e.localS), ("now", .namesV e.nowS)]

/-- Python `del d[k]`. -/
def delKey (d : List (String × VisitedVal)) (k : String) :
    List (String × VisitedVal) :=
  d.filter (fun p => !(p.1 == k))

/-- The object pickled to `visited.pkl`: each entry with its `'lock'` key
deleted. -/
def snapshotOf (s : St) : List (String × List (String × VisitedVal)) :=
  [("hackers", delKey (visitedDict s.vHackers) "lock"),
   ("devposts", delKey (visitedDict s.vDevposts) "lock"),
   ("hackathons", delKey (visitedDict s.vHackathons) "lock")]

/-- How the run ended: normally, or through one of the two caught abnormal
terminations. -/
inductive Termination
| normal
| osError
| keyboardInterrupt
deriving DecidableEq

/-- What `__main__` writes on shutdown: a snapshot exactly on the two
abnormal paths, nothing on the normal one. -/
def shutdownSnapshot (s : St) :
    Termination → Option (List (String × List (String × VisitedVal)))
  | .normal => none
  | .osError => some (snapshotOf s)
  | .keyboardInterrupt => some (snapshotOf s)

/-! ## Event counting -/

/-- Is this event a push of `(f, n)` onto the to-parse queue? -/
def pushNameP (f : Folder) (n : String) : Event → Bool
  | .push _ f' n' => f' == f && n' == n
  | _ => false

/-- Is this event any to-parse push? -/
def pushAnyP : Event → Bool
  | .push _ _ _ => true
  | _ => false

/-- Is this event a push of a non-hackathon task? -/
def pushOtherP : Event → Bool
  | .push _ f _ => !(f == Folder.hackathons)
  | _ => false

/-- Is this event a successful `task_done` on `q_todo` (either pool)? -/
def ackTodoP : Event → Bool
  | .ackC _ q _ => q == .todo
  | .ackP _ q _ => q == .todo
  | _ => false

/-- Is this event a crawler-side `task_done` that hit `q_todo`? -/
def ackCTodoP : Event → Bool
  | .ackC _ q _ => q == .todo
  | _ => false

/-- Is this event a parser-side `task_done`? -/
def ackPP : Event → Bool
  | .ackP _ _ _ => true
  | _ => false

/-- Fetches of name `n` in folder `f`. -/
def countFetch (l : List Event) (f : Folder) (n : String) : Nat :=
  l.count (Event.fetch f n)

/-- Pushes onto the to-parse queue of name `n` in folder `f` (any task id). -/
def countPushName (l : List Event) (f : Folder) (n : String) : Nat :=
  l.countP (pushNameP f n)

def countPushAll (l : List Event) : Nat := l.countP pushAnyP

/-- Pushes of non-hackathon tasks. -/
def countPushOther (l : List Event) : Nat := l.countP pushOtherP

/-- Successful `task_done` calls on `q_todo`, from either pool. -/
def countAckTodo (l : List Event) : Nat := l.countP ackTodoP

/-- Crawler-side `task_done` calls that hit `q_todo` (the hijacked ones). -/
def countAckCTodo (l : List Event) : Nat := l.countP ackCTodoP

/-- Parser-side `task_done` calls. -/
def countAckPAll (l : List Event) : Nat := l.countP ackPP

/-- Folder of heap slot `tid` (`hackathons` for a dangling id; every id ever
enqueued is live). -/
def folderAt (heap : List TaskObj) (tid : Nat) : Folder :=
  match heap.get? tid with
  | some t => t.folder
  | none => .hackathons

/-- `if b then 1 else 0`, named so arithmetic goals share one atom. -/
def bNat (b : Bool) : Nat := if b then 1 else 0

/-- Is this parser working on a non-hackathon task? -/
def workP (heap : List TaskObj) : PPc → Bool
  | .work tid => !(folderAt heap tid == Folder.hackathons)
  | _ => false

/-- Is this queued task id non-hackathon? -/
def todoP (heap : List TaskObj) (tid : Nat) : Bool :=
  !(folderAt heap tid == Folder.hackathons)

/-- Parsers currently working on a non-hackathon task. -/
def countWorkO (s : St) : Nat := s.parsers.countP (workP s.heap)

/-- Non-hackathon task ids sitting in `q_todo`. -/
def countTodoO (s : St) : Nat := s.qTodo.countP (todoP s.heap)

/-! ## Projection lemmas for the step primitives -/

@[simp] theorem crawlers_setV (s : St) (f : Folder) (v : VEntry) :
    (setV s f v).crawlers = s.crawlers := by cases f <;> rfl

@[simp] theorem parsers_setV (s : St) (f : Folder) (v : VEntry) :
    (setV s f v).parsers = s.parsers := by cases f <;> rfl

@[simp] theorem heap_setV (s : St) (f : Folder) (v : VEntry) :
    (setV s f v).heap = s.heap := by cases f <;> rfl

@[simp] theorem log_setV (s : St) (f : Folder) (v : VEntry) :
    (setV s f v).log = s.log := by cases f <;> rfl

@[simp] theorem qTodo_setV (s : St) (f : Folder) (v : VEntry) :
    (setV s f v).qTodo = s.qTodo := by cases f <;> rfl

@[simp] theorem uTodo_setV (s : St) (f : Folder) (v : VEntry) :
    (setV s f v).uTodo = s.uTodo := by cases f <;> rfl

@[simp] theorem memory_setV (s : St) (f : Folder) (v : VEntry) :
    (setV s f v).memory = s.memory := by cases f <;> rfl

@[simp] theorem qHacker_setV (s : St) (f : Folder) (v : VEntry) :
    (setV s f v).qHacker = s.qHacker := by cases f <;> rfl

@[simp] theorem qDevpost_setV (s : St) (f : Folder) (v : VEntry) :
    (setV s f v).qDevpost = s.qDevpost := by cases f <;> rfl

@[simp] theorem qHackathon_setV (s : St) (f : Folder) (v : VEntry) :
    (setV s f v).qHackathon = s.qHackathon := by cases f <;> rfl

theorem vOf_setV (s : St) (f : Folder) (v : VEntry) (f' : Folder) :
    vOf (setV s f v) f' = if f' = f then v else vOf s f' := by
  cases f <;> cases f' <;> simp [setV, vOf]

theorem uOf_setV (s : St) (f : Folder) (v : VEntry) (q : QId) :
    uOf (setV s f v) q = uOf s q := by
  cases f <;> cases q <;> rfl

@[simp] theorem crawlers_decU (s : St) (q : QId) :
    (decU s q).crawlers = s.crawlers := by cases q <;> rfl

@[simp] theorem parsers_decU (s : St) (q : QId) :
    (decU s q).parsers = s.parsers := by cases q <;> rfl

@[simp] theorem heap_decU (s : St) (q : QId) :
    (decU s q).heap = s.heap := by cases q <;> rfl

@[simp] theorem log_decU (s : St) (q : QId) :
    (decU s q).log = s.log := by cases q <;> rfl

@[simp] theorem qTodo_decU (s : St) (q : QId) :
    (decU s q).qTodo = s.qTodo := by cases q <;> rfl

@[simp] theorem memory_decU (s : St) (q : QId) :
    (decU s q).memory = s.memory := by cases q <;> rfl

theorem vOf_decU (s : St) (q : QId) (f : Folder) :
    vOf (decU s q) f = vOf s f := by
  cases q <;> cases f <;> rfl

theorem uTodo_decU (s : St) (q : QId) :
    (decU s q).uTodo = if q = .todo then s.uTodo - 1 else s.uTodo := by
  cases q <;> rfl

/-- Task id a crawler currently holds the critical section for, if any:
exactly the program counters between lock acquisition and release. -/
def csTid : CPc → Option Nat
  | .inCS tid => some tid
  | .doFetch tid => some tid
  | .checkNow tid => some tid
  | .enq tid => some tid
  | .ack tid => some tid
  | .unlock tid => some tid
  | _ => none

/-! ## The global invariant -/

/-- Inductive invariant of the engine, from `initSt`:

* `lockPc` — a crawler between lock acquisition and release holds a live
  task and its folder's lock (mutual exclusion follows: two crawlers in the
  critical section of one folder would both be the lock's holder);
* `fetchOnce`/`fetchLocal` — every (folder, name) is fetched at most once,
  and a fetched name is in `local`;
* `doFetchFresh` — a crawler about to fetch checked `name not in local`
  under the lock, and that is still true;
* `pushOnce`/`pushNow`/`enqFresh` — same discipline for the `now` sets and
  the to-parse pushes;
* `ackHeld` — every crawler-side `done_callback()` so far ran with the
  per-type lock held;
* `uTodoEq` — `q_todo`'s unfinished counter equals pushes minus successful
  `task_done`s on it;
* `ackPBound` — parser-side acknowledgements never outnumber the pushed
  non-hackathon tasks (hackathon tasks get no parser acknowledgement);
* `todoValid`/`workValid` — task ids in `q_todo` or being parsed are live. -/
structure Inv (s : St) : Prop where
  lockPc : ∀ i pc tid, s.crawlers.get? i = some pc → csTid pc = some tid →
    ∃ t, s.heap.get? tid = some t ∧ (vOf s t.folder).lock = some i
  fetchOnce : ∀ f n, countFetch s.log f n ≤ 1
  fetchLocal : ∀ f n, 1 ≤ countFetch s.log f n → n ∈ (vOf s f).localS
  doFetchFresh : ∀ i tid t, s.crawlers.get? i = some (.doFetch tid) →
    s.heap.get? tid = some t → t.name ∉ (vOf s t.folder).localS
  pushOnce : ∀ f n, countPushName s.log f n ≤ 1
  pushNow : ∀ f n, 1 ≤ countPushName s.log f n → n ∈ (vOf s f).nowS
  enqFresh : ∀ i tid t, s.crawlers.get? i = some (.enq tid) →
    s.heap.get? tid = some t → t.name ∉ (vOf s t.folder).nowS
  ackHeld : ∀ i q b, Event.ackC i q b ∈ s.log → b = true
  uTodoEq : s.uTodo + countAckTodo s.log = countPushAll s.log
  ackPBound : countAckPAll s.log + countWorkO s + countTodoO s ≤
    countPushOther s.log
  todoValid : ∀ tid ∈ s.qTodo, tid < s.heap.length
  workValid : ∀ j tid, s.parsers.get? j = some (.work tid) →
    tid < s.heap.length

theorem invInit (qh qd qk : List QItem) (lH lD lK : List String) :
    Inv (initSt qh qd qk lH lD lK) := by
  refine ⟨?_, ?_, ?_, ?_, ?_, ?_, ?_, ?_, ?_, ?_, ?_, ?_⟩
  · intro i pc tid hc hcs
    rcases i with _ | _ | _ | i <;> simp [initSt, List.get?] at hc <;>
      (try subst hc) <;> simp [csTid] at hcs
  · intro f n; simp [initSt, countFetch]
  · intro f n h; simp [initSt, countFetch] at h
  · intro i tid t hc
    rcases i with _ | _ | _ | i <;> simp [initSt, List.get?] at hc
  · intro f n; simp [initSt, countPushName]
  · intro f n h; simp [initSt, countPushName] at h
  · intro i tid t hc
    rcases i with _ | _ | _ | i <;> simp [initSt, List.get?] at hc
  · intro i q b h; simp [initSt] at h
  · simp [initSt, countAckTodo, countPushAll]
  · show (0 : Nat) + 0 + 0 ≤ 0; exact le_rfl
  · intro tid h; simp [initSt] at h
  · intro j tid hc
    rcases j with _ | _ | _ | _ | j <;> simp [initSt, List.get?] at hc

/-! ## List bookkeeping lemmas -/

theorem addName_mono {l : List String} {n m : String} (h : n ∈ l) :
    n ∈ addName l m := by
  unfold addName; split
  · exact h
  · exact List.mem_cons_of_mem _ h

theorem mem_addName (l : List String) (n : String) : n ∈ addName l n := by
  unfold addName; split
  · assumption
  · exact List.mem_cons_self _ _

theorem countP_set {α : Type} (p : α → Bool) (l : List α) (j : Nat) (x y : α)
    (h : l.get? j = some y) :
    (l.set j x).countP p + (if p y then 1 else 0) =
      l.countP p + (if p x then 1 else 0) := by
  induction l generalizing j with
  | nil => simp at h
  | cons a l ih =>
    cases j with
    | zero =>
      simp [List.get?] at h
      subst h
      simp [List.set, List.countP_cons]
      omega
    | succ j =>
      simp only [List.get?] at h
      simp only [List.set, List.countP_cons]
      have := ih j h
      omega

theorem countP_set_le {α : Type} (p : α → Bool) (l : List α) (j : Nat) (x : α)
    (h : p x = false) : (l.set j x).countP p ≤ l.countP p := by
  induction l generalizing j with
  | nil => simp
  | cons a l ih =>
    cases j with
    | zero => simp [List.set, List.countP_cons, h]
    | succ j =>
      simp only [List.set, List.countP_cons]
      have := ih j
      omega

theorem get?_set_cb (heap : List TaskObj) (tid : Nat) (t : TaskObj) (q : QId)
    (h : heap.get? tid = some t) (tid' : Nat) :
    (heap.set tid { t with doneCallback := q }).get? tid' =
      if tid' = tid then some { t with doneCallback := q }
      else heap.get? tid' := by
  by_cases e : tid' = tid
  · subst e
    simp only [if_pos rfl]
    exact List.get?_set_eq_of_lt _ (List.get?_eq_some.mp h).1
  · rw [if_neg e]
    exact List.get?_set_ne _ _ fun hx => e hx.symm

theorem folderAt_set_cb (heap : List TaskObj) (tid : Nat) (t : TaskObj)
    (q : QId) (h : heap.get? tid = some t) (tid' : Nat) :
    folderAt (heap.set tid { t with doneCallback := q }) tid' =
      folderAt heap tid' := by
  unfold folderAt
  rw [get?_set_cb heap tid t q h tid']
  by_cases e : tid' = tid
  · subst e
    rw [if_pos rfl, h]
  · rw [if_neg e]

theorem folderAt_append (heap : List TaskObj) (l : List TaskObj) (tid : Nat)
    (h : tid < heap.length) :
    folderAt (heap ++ l) tid = folderAt heap tid := by
  unfold folderAt
  rw [List.get?_append h]

/-- Events that touch none of the counted classes (prints, graph writes,
driver shutdowns). -/
def benignEvent : Event → Prop
  | .fetch _ _ => False
  | .push _ _ _ => False
  | .ackC _ _ _ => False
  | .ackP _ _ _ => False
  | _ => True

theorem countP_benign (evts : List Event)
    (hb : ∀ e ∈ evts, benignEvent e) (p : Event → Bool)
    (hp : ∀ e, benignEvent e → p e = false) : evts.countP p = 0 := by
  induction evts with
  | nil => rfl
  | cons e l ih =>
    rw [List.countP_cons, hp e (hb e (List.mem_cons_self _ _))]
    simp [ih fun x hx => hb x (List.mem_cons_of_mem _ hx)]

/-- `Inv` never mentions the three typed queues, their counters or `memory`;
it transfers along any state change that keeps the crawler/parser pools,
the heap, `q_todo`, its counter and the `visited` entries, and only adds
benign events to the log. -/
theorem invTransfer (s s' : St) (hs : Inv s)
    (hcr : s'.crawlers = s.crawlers) (hpa : s'.parsers = s.parsers)
    (hhe : s'.heap = s.heap) (hqt : s'.qTodo = s.qTodo)
    (hut : s'.uTodo = s.uTodo) (hv : ∀ f, vOf s' f = vOf s f)
    (evts : List Event) (hlog : s'.log = evts ++ s.log)
    (hb : ∀ e ∈ evts, benignEvent e) : Inv s' := by
  have hcF : ∀ f n, countFetch s'.log f n = countFetch s.log f n := by
    intro f n
    rw [hlog]
    unfold countFetch
    rw [List.count_append]
    have : (Event.fetch f n) ∉ evts := by
      intro hmem
      exact hb _ hmem
    simp [List.count_eq_zero.mpr this]
  have hcP : ∀ f n, countPushName s'.log f n = countPushName s.log f n := by
    intro f n
    rw [hlog]
    unfold countPushName
    rw [List.countP_append]
    rw [countP_benign evts hb _ (by intro e he; cases e <;> simp_all [benignEvent, pushNameP, pushAnyP, pushOtherP, ackTodoP, ackCTodoP, ackPP])]
    omega
  have hcA : countAckTodo s'.log = countAckTodo s.log := by
    rw [hlog]; unfold countAckTodo
    rw [List.countP_append,
      countP_benign evts hb _ (by intro e he; cases e <;> simp_all [benignEvent, pushNameP, pushAnyP, pushOtherP, ackTodoP, ackCTodoP, ackPP])]
    omega
  have hcPA : countPushAll s'.log = countPushAll s.log := by
    rw [hlog]; unfold countPushAll
    rw [List.countP_append,
      countP_benign evts hb _ (by intro e he; cases e <;> simp_all [benignEvent, pushNameP, pushAnyP, pushOtherP, ackTodoP, ackCTodoP, ackPP])]
    omega
  have hcAP : countAckPAll s'.log = countAckPAll s.log := by
    rw [hlog]; unfold countAckPAll
    rw [List.countP_append,
      countP_benign evts hb _ (by intro e he; cases e <;> simp_all [benignEvent, pushNameP, pushAnyP, pushOtherP, ackTodoP, ackCTodoP, ackPP])]
    omega
  have hcPO : countPushOther s'.log = countPushOther s.log := by
    rw [hlog]; unfold countPushOther
    rw [List.countP_append,
      countP_benign evts hb _ (by intro e he; cases e <;> simp_all [benignEvent, pushNameP, pushAnyP, pushOtherP, ackTodoP, ackCTodoP, ackPP])]
    omega
  have hWO : countWorkO s' = countWorkO s := by
    unfold countWorkO; rw [hpa, hhe]
  have hTO : countTodoO s' = countTodoO s := by
    unfold countTodoO; rw [hqt, hhe]
  refine ⟨?_, ?_, ?_, ?_, ?_, ?_, ?_, ?_, ?_, ?_, ?_, ?_⟩
  · intro i pc tid hc hcs
    rw [hcr] at hc
    obtain ⟨t, h1, h2⟩ := hs.lockPc i pc tid hc hcs
    exact ⟨t, by rw [hhe]; exact h1, by rw [hv]; exact h2⟩
  · intro f n; rw [hcF]; exact hs.fetchOnce f n
  · intro f n h; rw [hv]; exact hs.fetchLocal f n (by rwa [hcF] at h)
  · intro i tid t hc hh
    rw [hcr] at hc; rw [hhe] at hh; rw [hv]
    exact hs.doFetchFresh i tid t hc hh
  · intro f n; rw [hcP]; exact hs.pushOnce f n
  · intro f n h; rw [hv]; exact hs.pushNow f n (by rwa [hcP] at h)
  · intro i tid t hc hh
    rw [hcr] at hc; rw [hhe] at hh; rw [hv]
    exact hs.enqFresh i tid t hc hh
  · intro i q b h
    rw [hlog] at h
    rcases List.mem_append.mp h with h | h
    · exact absurd (hb _ h) (by simp [benignEvent])
    · exact hs.ackHeld i q b h
  · rw [hut, hcA, hcPA]; exact hs.uTodoEq
  · rw [hcAP, hcPO, hWO, hTO]; exact hs.ackPBound
  · intro tid h; rw [hqt] at h; rw [hhe]; exact hs.todoValid tid h
  · intro j tid h; rw [hpa] at h; rw [hhe]; exact hs.workValid j tid h

theorem countP_congr_mem {α : Type} (l : List α) (p q : α → Bool)
    (h : ∀ a ∈ l, p a = q a) : l.countP p = l.countP q := by
  induction l with
  | nil => rfl
  | cons b tl ih =>
    rw [List.countP_cons, List.countP_cons,
      ih fun a ha => h a (List.mem_cons_of_mem b ha),
      h b (List.mem_cons_self b tl)]

/-- A parser moving to `idle` or `dead` (never to `work`) while only the
`memory` dict changes preserves the invariant. -/
theorem invParserBland (s : St) (hs : Inv s) (j : Nat) (pcNew : PPc)
    (m' : List (String × Str)) (hnw : ∀ tid, pcNew ≠ PPc.work tid) :
    Inv (setP { s with memory := m' } j pcNew) := by
  have hv : ∀ f, vOf (setP { s with memory := m' } j pcNew) f = vOf s f := by
    intro f; cases f <;> rfl
  refine ⟨?_, ?_, ?_, ?_, ?_, ?_, ?_, ?_, ?_, ?_, ?_, ?_⟩
  · intro i pc tid hc hcs
    obtain ⟨t, h1, h2⟩ := hs.lockPc i pc tid hc hcs
    exact ⟨t, h1, by rw [hv]; exact h2⟩
  · exact hs.fetchOnce
  · intro f n h; rw [hv]; exact hs.fetchLocal f n h
  · intro i tid t hc hh; rw [hv]; exact hs.doFetchFresh i tid t hc hh
  · exact hs.pushOnce
  · intro f n h; rw [hv]; exact hs.pushNow f n h
  · intro i tid t hc hh; rw [hv]; exact hs.enqFresh i tid t hc hh
  · exact hs.ackHeld
  · exact hs.uTodoEq
  · have hW : countWorkO (setP { s with memory := m' } j pcNew) ≤
        countWorkO s := by
      unfold countWorkO
      refine countP_set_le _ _ _ _ ?_
      cases pcNew with
      | work tid => exact absurd rfl (hnw tid)
      | idle => rfl
      | dead => rfl
    have hB := hs.ackPBound
    have hT : countTodoO (setP { s with memory := m' } j pcNew) =
        countTodoO s := rfl
    show countAckPAll s.log + _ + _ ≤ countPushOther s.log
    rw [hT]
    omega
  · intro tid h; exact hs.todoValid tid h
  · intro j' tid hc
    simp only [setP] at hc
    show tid < s.heap.length
    by_cases e : j' = j
    · subst e
      rw [List.get?_set] at hc
      rw [if_pos rfl] at hc
      rcases hy : s.parsers.get? j' with _ | y <;> rw [hy] at hc <;>
        simp at hc
      exact absurd hc (hnw tid)
    · rw [List.get?_set_ne _ _ fun hx => e hx.symm] at hc
      exact hs.workValid j' tid hc

/-- A crawler moving between two non-critical-section program counters, with
the rest of the state untouched, preserves the invariant. -/
theorem invSetCNonCS (s : St) (hs : Inv s) (i : Nat) (pcNew : CPc)
    (hold : ∀ pc, s.crawlers.get? i = some pc → csTid pc = none)
    (hnew : csTid pcNew = none) : Inv (setC s i pcNew) := by
  have hv : ∀ f, vOf (setC s i pcNew) f = vOf s f := by
    intro f; cases f <;> rfl
  have hget : ∀ i' pc, (setC s i pcNew).crawlers.get? i' = some pc →
      csTid pc ≠ none → s.crawlers.get? i' = some pc := by
    intro i' pc hc hcs
    simp only [setC] at hc
    by_cases e : i' = i
    · subst e
      rw [List.get?_set] at hc
      rw [if_pos rfl] at hc
      rcases hy : s.crawlers.get? i' with _ | y <;> rw [hy] at hc <;>
        simp at hc
      rw [← hc] at hcs
      exact absurd hnew hcs
    · rwa [List.get?_set_ne _ _ fun hx => e hx.symm] at hc
  refine ⟨?_, ?_, ?_, ?_, ?_, ?_, ?_, ?_, ?_, ?_, ?_, ?_⟩
  · intro i' pc tid hc hcs
    have hc' := hget i' pc hc (by rw [hcs]; exact fun h => by cases h)
    obtain ⟨t, h1, h2⟩ := hs.lockPc i' pc tid hc' hcs
    exact ⟨t, h1, by rw [hv]; exact h2⟩
  · exact hs.fetchOnce
  · intro f n h; rw [hv]; exact hs.fetchLocal f n h
  · intro i' tid t hc hh
    have hc' := hget i' _ hc (by intro h; cases h)
    rw [hv]; exact hs.doFetchFresh i' tid t hc' hh
  · exact hs.pushOnce
  · intro f n h; rw [hv]; exact hs.pushNow f n h
  · intro i' tid t hc hh
    have hc' := hget i' _ hc (by intro h; cases h)
    rw [hv]; exact hs.enqFresh i' tid t hc' hh
  · exact hs.ackHeld
  · exact hs.uTodoEq
  · exact hs.ackPBound
  · intro tid h; exact hs.todoValid tid h
  · intro j tid hc; exact hs.workValid j tid hc

/-- Appending a freshly created task object to the heap preserves the
invariant. -/
theorem invHeapAppend (s : St) (hs : Inv s) (t : TaskObj) :
    Inv { s with heap := s.heap ++ [t] } := by
  have hv : ∀ f, vOf { s with heap := s.heap ++ [t] } f = vOf s f := by
    intro f; cases f <;> rfl
  refine ⟨?_, ?_, ?_, ?_, ?_, ?_, ?_, ?_, ?_, ?_, ?_, ?_⟩
  · intro i pc tid hc hcs
    obtain ⟨t0, h1, h2⟩ := hs.lockPc i pc tid hc hcs
    have hlt := (List.get?_eq_some.mp h1).1
    exact ⟨t0, by rw [List.get?_append hlt]; exact h1, by rw [hv]; exact h2⟩
  · exact hs.fetchOnce
  · intro f n h; rw [hv]; exact hs.fetchLocal f n h
  · intro i tid t0 hc hh
    obtain ⟨t1, h1, _⟩ := hs.lockPc i _ tid hc rfl
    have hlt := (List.get?_eq_some.mp h1).1
    rw [List.get?_append hlt] at hh
    rw [hv]; exact hs.doFetchFresh i tid t0 hc hh
  · exact hs.pushOnce
  · intro f n h; rw [hv]; exact hs.pushNow f n h
  · intro i tid t0 hc hh
    obtain ⟨t1, h1, _⟩ := hs.lockPc i _ tid hc rfl
    have hlt := (List.get?_eq_some.mp h1).1
    rw [List.get?_append hlt] at hh
    rw [hv]; exact hs.enqFresh i tid t0 hc hh
  · exact hs.ackHeld
  · exact hs.uTodoEq
  · have hW : countWorkO { s with heap := s.heap ++ [t] } = countWorkO s := by
      unfold countWorkO
      refine countP_congr_mem _ _ _ ?_
      intro pc hmem
      cases pc with
      | work tid =>
        obtain ⟨j, hj⟩ := List.mem_iff_get?.mp hmem
        have hlt := hs.workValid j tid hj
        simp only [workP, folderAt_append _ _ _ hlt]
      | idle => rfl
      | dead => rfl
    have hT : countTodoO { s with heap := s.heap ++ [t] } = countTodoO s := by
      unfold countTodoO
      refine countP_congr_mem _ _ _ ?_
      intro tid hmem
      have hlt := hs.todoValid tid hmem
      simp only [todoP, folderAt_append _ _ _ hlt]
    have hB := hs.ackPBound
    show countAckPAll s.log + _ + _ ≤ countPushOther s.log
    rw [hW, hT]
    omega
  · intro tid h
    have := hs.todoValid tid h
    rw [List.length_append]
    omega
  · intro j tid hc
    have := hs.workValid j tid hc
    rw [List.length_append]
    omega

/-- The closing `task['done_callback']()` of a parse body preserves the
invariant (the parser is at `work tid` on a live non-hackathon task). -/
theorem invFinishAck (s : St) (hs : Inv s) (j tid : Nat) (t : TaskObj)
    (hp : s.parsers.get? j = some (.work tid))
    (ht : s.heap.get? tid = some t)
    (hf : ¬t.folder = Folder.hackathons) :
    Inv (finishAck s j tid) := by
  have hfa : folderAt s.heap tid = t.folder := by unfold folderAt; rw [ht]
  unfold finishAck
  simp only [ht]
  by_cases hz : uOf s t.doneCallback = 0
  · rw [if_pos hz]
    exact invParserBland s hs j .dead s.memory (by intro tid' h; cases h)
  · rw [if_neg hz]
    set q := t.doneCallback with hqdef
    show Inv (setP { decU s q with log := Event.ackP j q tid :: s.log } j
      PPc.idle)
    have hv : ∀ f,
        vOf (setP { decU s q with log := .ackP j q tid :: s.log } j .idle) f =
          vOf s f := by
      intro f; cases f <;> cases q <;> rfl
    have hcr : (setP { decU s q with log := .ackP j q tid :: s.log } j
        .idle).crawlers = s.crawlers := by
      simp [setP]
    have hhe : (setP { decU s q with log := .ackP j q tid :: s.log } j
        .idle).heap = s.heap := by
      simp [setP]
    have hqt : (setP { decU s q with log := .ackP j q tid :: s.log } j
        .idle).qTodo = s.qTodo := by
      simp [setP]
    have hlog : (setP { decU s q with log := .ackP j q tid :: s.log } j
        .idle).log = Event.ackP j q tid :: s.log := by
      simp [setP]
    have hpa : (setP { decU s q with log := .ackP j q tid :: s.log } j
        .idle).parsers = s.parsers.set j .idle := by
      simp [setP]
    refine ⟨?_, ?_, ?_, ?_, ?_, ?_, ?_, ?_, ?_, ?_, ?_, ?_⟩
    · intro i pc tid0 hc hcs
      rw [hcr] at hc
      obtain ⟨t0, h1, h2⟩ := hs.lockPc i pc tid0 hc hcs
      exact ⟨t0, by rw [hhe]; exact h1, by rw [hv]; exact h2⟩
    · intro f n
      rw [hlog]
      show countFetch (_ :: s.log) f n ≤ 1
      unfold countFetch at *
      rw [List.count_cons]
      simpa using hs.fetchOnce f n
    · intro f n h
      rw [hlog] at h
      rw [hv]
      refine hs.fetchLocal f n ?_
      unfold countFetch at *
      rw [List.count_cons] at h
      simpa using h
    · intro i tid0 t0 hc hh
      rw [hcr] at hc; rw [hhe] at hh; rw [hv]
      exact hs.doFetchFresh i tid0 t0 hc hh
    · intro f n
      rw [hlog]
      unfold countPushName at *
      rw [List.countP_cons]
      simpa [pushNameP] using hs.pushOnce f n
    · intro f n h
      rw [hlog] at h
      rw [hv]
      refine hs.pushNow f n ?_
      unfold countPushName at *
      rw [List.countP_cons] at h
      simpa [pushNameP] using h
    · intro i tid0 t0 hc hh
      rw [hcr] at hc; rw [hhe] at hh; rw [hv]
      exact hs.enqFresh i tid0 t0 hc hh
    · intro i q' b h
      rw [hlog] at h
      rcases List.mem_cons.mp h with h | h
      · cases h
      · exact hs.ackHeld i q' b h
    · rw [hlog]
      have h2 : countPushAll (Event.ackP j q tid :: s.log) =
          countPushAll s.log := by
        unfold countPushAll; rw [List.countP_cons]; simp [pushAnyP]
      rw [h2]
      show (decU s q).uTodo + countAckTodo (Event.ackP j q tid :: s.log) =
        countPushAll s.log
      rw [uTodo_decU]
      have hev := hs.uTodoEq
      by_cases hq : q = QId.todo
      · have h1 : countAckTodo (Event.ackP j q tid :: s.log) =
            countAckTodo s.log + 1 := by
          unfold countAckTodo; rw [List.countP_cons]; simp [ackTodoP, hq]
        have hzz : s.uTodo ≠ 0 := by
          rw [hq] at hz; exact hz
        rw [h1, if_pos hq]
        omega
      · have h1 : countAckTodo (Event.ackP j q tid :: s.log) =
            countAckTodo s.log := by
          unfold countAckTodo; rw [List.countP_cons]; simp [ackTodoP, hq]
        rw [h1, if_neg hq]
        omega
    · -- ackPBound
      have hAP : countAckPAll (Event.ackP j q tid :: s.log) =
          countAckPAll s.log + 1 := by
        unfold countAckPAll; rw [List.countP_cons]; simp [ackPP]
      have hPO : countPushOther (Event.ackP j q tid :: s.log) =
          countPushOther s.log := by
        unfold countPushOther; rw [List.countP_cons]; simp [pushOtherP]
      have hset := countP_set (workP s.heap) s.parsers j .idle (.work tid) hp
      have hx : workP s.heap (.work tid) = true := by
        simp [workP, hfa, hf]
      have hset2 : (s.parsers.set j PPc.idle).countP (workP s.heap) +
          bNat (workP s.heap (.work tid)) =
          s.parsers.countP (workP s.heap) + bNat (workP s.heap .idle) := hset
      rw [hx] at hset2
      have hb0 : bNat true = 1 := rfl
      have hb1 : bNat (workP s.heap PPc.idle) = 0 := rfl
      rw [hb0, hb1] at hset2
      have hWO : countWorkO (setP { decU s q with
          log := .ackP j q tid :: s.log } j .idle) + 1 = countWorkO s := by
        unfold countWorkO
        rw [hpa, hhe]
        omega
      have hTO : countTodoO (setP { decU s q with
          log := .ackP j q tid :: s.log } j .idle) = countTodoO s := by
        unfold countTodoO
        rw [hqt, hhe]
      have hB := hs.ackPBound
      show countAckPAll (setP { decU s q with
          log := .ackP j q tid :: s.log } j .idle).log + _ + _ ≤ _
      rw [hlog, hAP, hPO, hTO]
      omega
    · intro tid0 h
      rw [hqt] at h
      rw [hhe]
      exact hs.todoValid tid0 h
    · intro j' tid0 hc
      rw [hpa] at hc
      rw [hhe]
      by_cases e : j' = j
      · subst e
        rw [List.get?_set] at hc
        rw [if_pos rfl] at hc
        rcases hy : s.parsers.get? j' with _ | y <;> rw [hy] at hc <;>
          simp at hc
      · rw [List.get?_set_ne _ _ fun hx => e hx.symm] at hc
        exact hs.workValid j' tid0 hc

/-- The state after `get_parser_task` hands task `tid` to parser `j`
(pop `q_todo`, overwrite the dict's `'done_callback'`, enter the body). -/
def pgetState (s : St) (j tid : Nat) (rest : List Nat) (t : TaskObj) : St :=
  setP
    { s with
        qTodo := rest,
        heap := s.heap.set tid { t with doneCallback := .todo } }
    j (.work tid)

theorem pgetState_heap (s : St) (j tid : Nat) (rest : List Nat) (t : TaskObj) :
    (pgetState s j tid rest t).heap =
      s.heap.set tid { t with doneCallback := .todo } := rfl

theorem pgetState_parsers (s : St) (j tid : Nat) (rest : List Nat)
    (t : TaskObj) :
    (pgetState s j tid rest t).parsers = s.parsers.set j (.work tid) := rfl

theorem pgetState_vOf (s : St) (j tid : Nat) (rest : List Nat) (t : TaskObj)
    (f : Folder) : vOf (pgetState s j tid rest t) f = vOf s f := by
  cases f <;> rfl

/-- Any parser step preserves the invariant. -/
theorem invParse (s : St) (j : Nat) (hs : Inv s) : Inv (parseStep s j) := by
  unfold parseStep
  split
  · exact hs
  · exact hs
  · -- idle: get_parser_task
    rename_i hp
    split
    · exact hs
    · rename_i tid rest hq
      split
      · exact hs
      · rename_i t ht
        -- pop q_todo, overwrite done_callback, move to work
        show Inv (pgetState s j tid rest t)
        have hlt : tid < s.heap.length := (List.get?_eq_some.mp ht).1
        have hv := pgetState_vOf s j tid rest t
        have hget := get?_set_cb s.heap tid t .todo ht
        refine ⟨?_, ?_, ?_, ?_, ?_, ?_, ?_, ?_, ?_, ?_, ?_, ?_⟩
        · intro i pc tid0 hc hcs
          obtain ⟨t0, h1, h2⟩ := hs.lockPc i pc tid0 hc hcs
          by_cases e : tid0 = tid
          · subst e
            rw [h1] at ht
            cases ht
            refine ⟨{ t with doneCallback := .todo }, ?_, by rw [hv]; exact h2⟩
            rw [pgetState_heap]
            rw [hget tid0, if_pos rfl]
          · refine ⟨t0, ?_, by rw [hv]; exact h2⟩
            rw [pgetState_heap]
            rw [hget tid0, if_neg e]
            exact h1
        · exact hs.fetchOnce
        · intro f n h; rw [hv]; exact hs.fetchLocal f n h
        · intro i tid0 t0 hc hh
          rw [hv]
          rw [pgetState_heap] at hh
          rw [hget tid0] at hh
          by_cases e : tid0 = tid
          · rw [if_pos e] at hh
            cases hh
            rw [e] at hc
            have := hs.doFetchFresh i tid t hc ht
            exact this
          · rw [if_neg e] at hh
            exact hs.doFetchFresh i tid0 t0 hc hh
        · exact hs.pushOnce
        · intro f n h; rw [hv]; exact hs.pushNow f n h
        · intro i tid0 t0 hc hh
          rw [hv]
          rw [pgetState_heap] at hh
          rw [hget tid0] at hh
          by_cases e : tid0 = tid
          · rw [if_pos e] at hh
            cases hh
            rw [e] at hc
            have := hs.enqFresh i tid t hc ht
            exact this
          · rw [if_neg e] at hh
            exact hs.enqFresh i tid0 t0 hc hh
        · exact hs.ackHeld
        · exact hs.uTodoEq
        · -- ackPBound
          have hfa : ∀ tid', folderAt (s.heap.set tid
              { t with doneCallback := .todo }) tid' = folderAt s.heap tid' :=
            folderAt_set_cb s.heap tid t .todo ht
          have hset := countP_set (workP s.heap) s.parsers j (.work tid)
            .idle hp
          have hset2 : (s.parsers.set j (PPc.work tid)).countP
              (workP s.heap) + bNat (workP s.heap .idle) =
              s.parsers.countP (workP s.heap) +
                bNat (workP s.heap (.work tid)) := hset
          have hb1 : bNat (workP s.heap PPc.idle) = 0 := rfl
          rw [hb1] at hset2
          have hcongr : (s.parsers.set j (PPc.work tid)).countP
              (workP (s.heap.set tid { t with doneCallback := .todo })) =
              (s.parsers.set j (PPc.work tid)).countP (workP s.heap) := by
            refine countP_congr_mem _ _ _ ?_
            intro pc hmem
            cases pc with
            | work tid0 => simp only [workP, hfa tid0]
            | idle => rfl
            | dead => rfl
          have hWO : countWorkO (pgetState s j tid rest t) =
              (s.parsers.set j (PPc.work tid)).countP (workP s.heap) := by
            unfold countWorkO
            rw [pgetState_parsers, pgetState_heap]
            rw [hcongr]
          have hTodoCons : countTodoO s =
              rest.countP (todoP s.heap) + bNat (todoP s.heap tid) := by
            unfold countTodoO
            rw [hq]
            rw [List.countP_cons]
            rfl
          have hTO : countTodoO (pgetState s j tid rest t) =
              rest.countP (todoP s.heap) := by
            unfold countTodoO
            rw [pgetState_heap]
            show rest.countP _ = _
            refine countP_congr_mem _ _ _ ?_
            intro tid0 hmem
            simp only [todoP, hfa tid0]
          have hWOs : countWorkO s = s.parsers.countP (workP s.heap) := rfl
          have hkey : todoP s.heap tid = workP s.heap (PPc.work tid) := rfl
          have hB := hs.ackPBound
          rw [hTodoCons, hWOs, hkey] at hB
          show countAckPAll s.log + _ + _ ≤ countPushOther s.log
          rw [hWO, hTO]
          omega
        · intro tid0 h
          have h0 : tid0 ∈ s.qTodo := by
            rw [hq]; exact List.mem_cons_of_mem _ h
          have := hs.todoValid tid0 h0
          rw [pgetState_heap, List.length_set]
          exact this
        · intro j' tid0 hc
          rw [pgetState_heap, List.length_set]
          rw [pgetState_parsers] at hc
          by_cases e : j' = j
          · subst e
            rw [List.get?_set] at hc
            rw [if_pos rfl] at hc
            rcases hy : s.parsers.get? j' with _ | y <;> rw [hy] at hc <;>
              simp at hc
            rw [← hc]
            exact hlt
          · rw [List.get?_set_ne _ _ fun hx => e hx.symm] at hc
            exact hs.workValid j' tid0 hc
  · -- work tid
    rename_i tid hp
    split
    · exact hs
    · rename_i t ht
      split
      · -- KeyError: memory[name] missing
        exact invParserBland s hs j .dead s.memory (by intro tid' h; cases h)
      · rename_i content hm
        split
        · -- hackathons: delete cache, no dispatch, no ack
          exact invParserBland s hs j .idle (merase s.memory t.name)
            (by intro tid' h; cases h)
        · -- hackers
          have hfold : t.folder = Folder.hackers := by assumption
          rcases hok : parse_hacker_extract t.name content with e | info <;>
            simp only [hok]
          · exact invParserBland s hs j .dead (merase s.memory t.name)
              (by intro tid' h; cases h)
          · apply invFinishAck
            · refine invTransfer s _ hs rfl rfl rfl rfl rfl
                (by intro f; cases f <;> rfl)
                ((info.devposts.map
                  (fun d => Event.edgeWrite t.name (String.mk d))).reverse ++
                  [Event.nodeHacker t.name]) ?_ ?_
              · show _ ++ (Event.nodeHacker t.name :: s.log) = _
                rw [List.append_assoc]
                rfl
              · intro e he
                rcases List.mem_append.mp he with h | h
                · rw [List.mem_reverse] at h
                  obtain ⟨d, _, hd⟩ := List.mem_map.mp h
                  rw [← hd]; trivial
                · rw [List.mem_singleton.mp h]; trivial
            · exact hp
            · exact ht
            · rw [hfold]; intro hx; cases hx
        · -- devposts
          have hfold : t.folder = Folder.devposts := by assumption
          rcases hok : parse_devpost_extract content with e | info <;>
            simp only [hok]
          · exact invParserBland s hs j .dead (merase s.memory t.name)
              (by intro tid' h; cases h)
          · apply invFinishAck
            · refine invTransfer s _ hs rfl rfl rfl rfl rfl
                (by intro f; cases f <;> rfl)
                ((info.hackers.map
                  (fun p => Event.edgeWrite (String.mk p.1) t.name)).reverse ++
                  [Event.nodeDevpost t.name]) ?_ ?_
              · show _ ++ (Event.nodeDevpost t.name :: s.log) = _
                rw [List.append_assoc]
                rfl
              · intro e he
                rcases List.mem_append.mp he with h | h
                · rw [List.mem_reverse] at h
                  obtain ⟨d, _, hd⟩ := List.mem_map.mp h
                  rw [← hd]; trivial
                · rw [List.mem_singleton.mp h]; trivial
            · exact hp
            · exact ht
            · rw [hfold]; intro hx; cases hx

/-- Where a crawler-pool `List.set` sends `get?`. -/
theorem crawlers_set_cases (s : St) (i : Nat) (pcNew : CPc) (i' : Nat)
    (pc : CPc) (hcc : (setC s i pcNew).crawlers.get? i' = some pc) :
    (i' = i ∧ pcNew = pc) ∨ (¬i' = i ∧ s.crawlers.get? i' = some pc) := by
  simp only [setC] at hcc
  by_cases e : i' = i
  · subst e
    rw [List.get?_set, if_pos rfl] at hcc
    rcases hy : s.crawlers.get? i' with _ | y <;> rw [hy] at hcc <;>
      simp at hcc
    exact Or.inl ⟨rfl, hcc⟩
  · rw [List.get?_set_ne _ _ fun hx => e hx.symm] at hcc
    exact Or.inr ⟨e, hcc⟩

/-- A crawler stepping between two program counters of the same critical
section (same task, lock kept, nothing else changed) preserves the
invariant; freshness obligations are supplied for a target of `doFetch` or
`enq`. -/
theorem invSetCSameCS (s : St) (hs : Inv s) (i tid : Nat) (pcOld pcNew : CPc)
    (hc : s.crawlers.get? i = some pcOld) (hOld : csTid pcOld = some tid)
    (hNew : csTid pcNew = some tid)
    (hfresh : ∀ t, pcNew = CPc.doFetch tid → s.heap.get? tid = some t →
      t.name ∉ (vOf s t.folder).localS)
    (henq : ∀ t, pcNew = CPc.enq tid → s.heap.get? tid = some t →
      t.name ∉ (vOf s t.folder).nowS) :
    Inv (setC s i pcNew) := by
  have hv : ∀ f, vOf (setC s i pcNew) f = vOf s f := by
    intro f; cases f <;> rfl
  refine ⟨?_, ?_, ?_, ?_, ?_, ?_, ?_, ?_, ?_, ?_, ?_, ?_⟩
  · intro i' pc tid0 hcc hcs
    rcases crawlers_set_cases s i pcNew i' pc hcc with ⟨he, hpc⟩ | ⟨he, hold⟩
    · subst he
      rw [← hpc] at hcs
      rw [hNew] at hcs
      cases hcs
      obtain ⟨t, h1, h2⟩ := hs.lockPc i' pcOld tid hc hOld
      exact ⟨t, h1, by rw [hv]; exact h2⟩
    · obtain ⟨t, h1, h2⟩ := hs.lockPc i' pc tid0 hold hcs
      exact ⟨t, h1, by rw [hv]; exact h2⟩
  · exact hs.fetchOnce
  · intro f n h; rw [hv]; exact hs.fetchLocal f n h
  · intro i' tid0 t0 hcc hh
    rw [hv]
    rcases crawlers_set_cases s i pcNew i' _ hcc with ⟨he, hpc⟩ | ⟨he, hold⟩
    · have htid : tid0 = tid := by
        rw [hpc] at hNew
        simp [csTid] at hNew
        omega
      subst htid
      exact hfresh t0 hpc hh
    · exact hs.doFetchFresh i' tid0 t0 hold hh
  · exact hs.pushOnce
  · intro f n h; rw [hv]; exact hs.pushNow f n h
  · intro i' tid0 t0 hcc hh
    rw [hv]
    rcases crawlers_set_cases s i pcNew i' _ hcc with ⟨he, hpc⟩ | ⟨he, hold⟩
    · have htid : tid0 = tid := by
        rw [hpc] at hNew
        simp [csTid] at hNew
        omega
      subst htid
      exact henq t0 hpc hh
    · exact hs.enqFresh i' tid0 t0 hold hh
  · exact hs.ackHeld
  · exact hs.uTodoEq
  · exact hs.ackPBound
  · intro tid0 h; exact hs.todoValid tid0 h
  · intro j tid0 hc'; exact hs.workValid j tid0 hc'

/-- A crawler leaving its critical section (lock released, target program
counter outside any critical section) preserves the invariant.  Covers the
normal `with`-block exit, the fetch-failure unwind and the `ValueError`
unwind. -/
theorem invRelease (s : St) (hs : Inv s) (i tid : Nat) (t : TaskObj)
    (pcOld pcNew : CPc) (hc : s.crawlers.get? i = some pcOld)
    (hOld : csTid pcOld = some tid) (ht : s.heap.get? tid = some t)
    (hnew : csTid pcNew = none) :
    Inv (setC (setV s t.folder { vOf s t.folder with lock := none }) i
      pcNew) := by
  obtain ⟨t1, ht1, hl1⟩ := hs.lockPc i pcOld tid hc hOld
  rw [ht] at ht1
  cases ht1
  have hv : ∀ f, vOf (setC (setV s t.folder
      { vOf s t.folder with lock := none }) i pcNew) f =
      if f = t.folder then { vOf s t.folder with lock := none }
      else vOf s f := by
    intro f
    have h1 : ∀ (X : St) k pc g, vOf (setC X k pc) g = vOf X g := by
      intro X k pc g; cases g <;> rfl
    rw [h1, vOf_setV]
  have hloc : ∀ f, (vOf (setC (setV s t.folder
      { vOf s t.folder with lock := none }) i pcNew) f).localS =
      (vOf s f).localS := by
    intro f; rw [hv]; split
    · rename_i he; rw [he]
    · rfl
  have hnowS : ∀ f, (vOf (setC (setV s t.folder
      { vOf s t.folder with lock := none }) i pcNew) f).nowS =
      (vOf s f).nowS := by
    intro f; rw [hv]; split
    · rename_i he; rw [he]
    · rfl
  have hcrawlers : (setC (setV s t.folder
      { vOf s t.folder with lock := none }) i pcNew).crawlers =
      s.crawlers.set i pcNew := by
    simp [setC]
  refine ⟨?_, ?_, ?_, ?_, ?_, ?_, ?_, ?_, ?_, ?_, ?_, ?_⟩
  · intro i' pc tid0 hcc hcs
    have hcc' : (setC s i pcNew).crawlers.get? i' = some pc := by
      simp only [setC]
      rw [← hcrawlers]
      exact hcc
    rcases crawlers_set_cases s i pcNew i' pc hcc' with ⟨he, hpc⟩ | ⟨he, hold⟩
    · rw [← hpc] at hcs
      rw [hnew] at hcs
      cases hcs
    · obtain ⟨t0, h1, h2⟩ := hs.lockPc i' pc tid0 hold hcs
      refine ⟨t0, by simp only [setC, heap_setV]; exact h1, ?_⟩
      rw [hv]
      by_cases e2 : t0.folder = t.folder
      · exfalso
        rw [e2] at h2
        rw [h2] at hl1
        cases hl1
        exact he rfl
      · rw [if_neg e2]
        exact h2
  · intro f n
    simp only [setC, log_setV]
    exact hs.fetchOnce f n
  · intro f n h
    simp only [setC, log_setV] at h
    rw [hloc]
    exact hs.fetchLocal f n h
  · intro i' tid0 t0 hcc hh
    rw [hloc]
    simp only [setC, heap_setV] at hh
    have hcc' : (setC s i pcNew).crawlers.get? i' = some (.doFetch tid0) := by
      simp only [setC]
      rw [← hcrawlers]
      exact hcc
    rcases crawlers_set_cases s i pcNew i' _ hcc' with ⟨he, hpc⟩ | ⟨he, hold⟩
    · rw [hpc] at hnew
      simp [csTid] at hnew
    · exact hs.doFetchFresh i' tid0 t0 hold hh
  · intro f n
    simp only [setC, log_setV]
    exact hs.pushOnce f n
  · intro f n h
    simp only [setC, log_setV] at h
    rw [hnowS]
    exact hs.pushNow f n h
  · intro i' tid0 t0 hcc hh
    rw [hnowS]
    simp only [setC, heap_setV] at hh
    have hcc' : (setC s i pcNew).crawlers.get? i' = some (.enq tid0) := by
      simp only [setC]
      rw [← hcrawlers]
      exact hcc
    rcases crawlers_set_cases s i pcNew i' _ hcc' with ⟨he, hpc⟩ | ⟨he, hold⟩
    · rw [hpc] at hnew
      simp [csTid] at hnew
    · exact hs.enqFresh i' tid0 t0 hold hh
  · intro i' q b h
    simp only [setC, log_setV] at h
    exact hs.ackHeld i' q b h
  · simp only [setC, log_setV, uTodo_setV]
    exact hs.uTodoEq
  · have h1 : countWorkO (setC (setV s t.folder
        { vOf s t.folder with lock := none }) i pcNew) = countWorkO s := by
      unfold countWorkO
      simp [setC]
    have h2 : countTodoO (setC (setV s t.folder
        { vOf s t.folder with lock := none }) i pcNew) = countTodoO s := by
      unfold countTodoO
      simp [setC]
    rw [h1, h2]
    simp only [setC, log_setV]
    exact hs.ackPBound
  · intro tid0 h
    simp only [setC, qTodo_setV] at h
    simp only [setC, heap_setV]
    exact hs.todoValid tid0 h
  · intro j tid0 hc'
    simp only [setC, parsers_setV] at hc'
    simp only [setC, heap_setV]
    exact hs.workValid j tid0 hc'

/-- The state after a crawler acquires `visited[folder]['lock']`. -/
def acquireState (s : St) (i tid : Nat) (t : TaskObj) : St :=
  setC (setV s t.folder { vOf s t.folder with lock := some i }) i (.inCS tid)

theorem invAcquire (s : St) (hs : Inv s) (i tid : Nat) (t : TaskObj)
    (hc : s.crawlers.get? i = some (.hasTask tid))
    (ht : s.heap.get? tid = some t)
    (hlock : (vOf s t.folder).lock = none) :
    Inv (acquireState s i tid t) := by
  have hv : ∀ f, vOf (acquireState s i tid t) f =
      if f = t.folder then { vOf s t.folder with lock := some i }
      else vOf s f := by
    intro f
    have h1 : ∀ (X : St) k pc g, vOf (setC X k pc) g = vOf X g := by
      intro X k pc g; cases g <;> rfl
    unfold acquireState
    rw [h1, vOf_setV]
  have hloc : ∀ f, (vOf (acquireState s i tid t) f).localS =
      (vOf s f).localS := by
    intro f; rw [hv]; split
    · rename_i he; rw [he]
    · rfl
  have hnowS : ∀ f, (vOf (acquireState s i tid t) f).nowS =
      (vOf s f).nowS := by
    intro f; rw [hv]; split
    · rename_i he; rw [he]
    · rfl
  have hcrawlers : (acquireState s i tid t).crawlers =
      s.crawlers.set i (.inCS tid) := by
    unfold acquireState; simp [setC]
  have hlog : (acquireState s i tid t).log = s.log := by
    unfold acquireState; simp [setC]
  have hheapP : (acquireState s i tid t).heap = s.heap := by
    unfold acquireState; simp [setC]
  have hqTodoP : (acquireState s i tid t).qTodo = s.qTodo := by
    unfold acquireState; simp [setC]
  have huTodoP : (acquireState s i tid t).uTodo = s.uTodo := by
    unfold acquireState; simp [setC]
  have hparsersP : (acquireState s i tid t).parsers = s.parsers := by
    unfold acquireState; simp [setC]
  refine ⟨?_, ?_, ?_, ?_, ?_, ?_, ?_, ?_, ?_, ?_, ?_, ?_⟩
  · intro i' pc tid0 hcc hcs
    have hcc' : (setC s i (CPc.inCS tid)).crawlers.get? i' = some pc := by
      simp only [setC]
      rw [← hcrawlers]
      exact hcc
    rcases crawlers_set_cases s i _ i' pc hcc' with ⟨he, hpc⟩ | ⟨he, hold⟩
    · subst he
      rw [← hpc] at hcs
      simp [csTid] at hcs
      subst hcs
      refine ⟨t, ?_, ?_⟩
      · show (acquireState s i' tid t).heap.get? tid = some t
        unfold acquireState
        simp only [setC, heap_setV]
        exact ht
      · rw [hv, if_pos rfl]
    · obtain ⟨t0, h1, h2⟩ := hs.lockPc i' pc tid0 hold hcs
      refine ⟨t0, ?_, ?_⟩
      · show (acquireState s i tid t).heap.get? tid0 = some t0
        unfold acquireState
        simp only [setC, heap_setV]
        exact h1
      · rw [hv]
        by_cases e2 : t0.folder = t.folder
        · exfalso
          rw [e2, hlock] at h2
          cases h2
        · rw [if_neg e2]
          exact h2
  · intro f n
    rw [hlog]
    exact hs.fetchOnce f n
  · intro f n h
    rw [hlog] at h
    rw [hloc]
    exact hs.fetchLocal f n h
  · intro i' tid0 t0 hcc hh
    rw [hloc]
    rw [hheapP] at hh
    have hcc' : (setC s i (CPc.inCS tid)).crawlers.get? i' =
        some (.doFetch tid0) := by
      simp only [setC]
      rw [← hcrawlers]
      exact hcc
    rcases crawlers_set_cases s i _ i' _ hcc' with ⟨he, hpc⟩ | ⟨he, hold⟩
    · cases hpc
    · exact hs.doFetchFresh i' tid0 t0 hold hh
  · intro f n
    rw [hlog]
    exact hs.pushOnce f n
  · intro f n h
    rw [hlog] at h
    rw [hnowS]
    exact hs.pushNow f n h
  · intro i' tid0 t0 hcc hh
    rw [hnowS]
    rw [hheapP] at hh
    have hcc' : (setC s i (CPc.inCS tid)).crawlers.get? i' =
        some (.enq tid0) := by
      simp only [setC]
      rw [← hcrawlers]
      exact hcc
    rcases crawlers_set_cases s i _ i' _ hcc' with ⟨he, hpc⟩ | ⟨he, hold⟩
    · cases hpc
    · exact hs.enqFresh i' tid0 t0 hold hh
  · intro i' q b h
    rw [hlog] at h
    exact hs.ackHeld i' q b h
  · rw [huTodoP, hlog]
    exact hs.uTodoEq
  · have h1 : countWorkO (acquireState s i tid t) = countWorkO s := by
      unfold countWorkO acquireState
      simp [setC]
    have h2 : countTodoO (acquireState s i tid t) = countTodoO s := by
      unfold countTodoO acquireState
      simp [setC]
    rw [h1, h2, hlog]
    exact hs.ackPBound
  · intro tid0 h
    rw [hqTodoP] at h
    rw [hheapP]
    exact hs.todoValid tid0 h
  · intro j tid0 hc'
    rw [hparsersP] at hc'
    rw [hheapP]
    exact hs.workValid j tid0 hc'

/-- The state after a successful fetch (main.py lines 95-101): progress
print, `driver.get` + `page_source` into `memory`, name added to `local`. -/
def fetchOkState (s : St) (i tid : Nat) (t : TaskObj) (content : Str) : St :=
  let s1 : St := { s with log := .printAdding t.folder t.name :: s.log }
  let s2 : St := { s1 with memory := minsert s1.memory t.name content,
                           log := .fetch t.folder t.name :: s1.log }
  setC (setV s2 t.folder
    { vOf s2 t.folder with
        localS := addName (vOf s2 t.folder).localS t.name }) i (.checkNow tid)

theorem fetchOkState_vOf (s : St) (i tid : Nat) (t : TaskObj) (content : Str)
    (f : Folder) :
    vOf (fetchOkState s i tid t content) f =
      if f = t.folder then
        { vOf s t.folder with
            localS := addName (vOf s t.folder).localS t.name }
      else vOf s f := by
  obtain ⟨u, fo, na, pr, cb⟩ := t
  cases fo <;> cases f <;> simp [fetchOkState, setC, setV, vOf]

theorem fetchOkState_log (s : St) (i tid : Nat) (t : TaskObj) (content : Str) :
    (fetchOkState s i tid t content).log =
      .fetch t.folder t.name :: .printAdding t.folder t.name :: s.log := by
  simp [fetchOkState, setC]

theorem invFetchOk (s : St) (hs : Inv s) (i tid : Nat) (t : TaskObj)
    (content : Str) (hc : s.crawlers.get? i = some (.doFetch tid))
    (ht : s.heap.get? tid = some t) :
    Inv (fetchOkState s i tid t content) := by
  have hfresh := hs.doFetchFresh i tid t hc ht
  obtain ⟨t1, ht1, hlock⟩ := hs.lockPc i _ tid hc rfl
  rw [ht] at ht1
  cases ht1
  have hv := fetchOkState_vOf s i tid t content
  have hlockpres : ∀ f, (vOf (fetchOkState s i tid t content) f).lock =
      (vOf s f).lock := by
    intro f; rw [hv]; split
    · rename_i he; rw [he]
    · rfl
  have hnowS : ∀ f, (vOf (fetchOkState s i tid t content) f).nowS =
      (vOf s f).nowS := by
    intro f; rw [hv]; split
    · rename_i he; rw [he]
    · rfl
  have hcrawlers : (fetchOkState s i tid t content).crawlers =
      s.crawlers.set i (.checkNow tid) := by
    simp [fetchOkState, setC]
  have hheapP : (fetchOkState s i tid t content).heap = s.heap := by
    simp [fetchOkState, setC]
  have hqTodoP : (fetchOkState s i tid t content).qTodo = s.qTodo := by
    simp [fetchOkState, setC]
  have huTodoP : (fetchOkState s i tid t content).uTodo = s.uTodo := by
    simp [fetchOkState, setC]
  have hparsersP : (fetchOkState s i tid t content).parsers = s.parsers := by
    simp [fetchOkState, setC]
  have hlog := fetchOkState_log s i tid t content
  have hcP : ∀ f n, countPushName (fetchOkState s i tid t content).log f n =
      countPushName s.log f n := by
    intro f n
    rw [hlog]
    unfold countPushName
    rw [List.countP_cons, List.countP_cons]
    rfl
  have hcA : countAckTodo (fetchOkState s i tid t content).log =
      countAckTodo s.log := by
    rw [hlog]
    unfold countAckTodo
    rw [List.countP_cons, List.countP_cons]
    rfl
  have hcPA : countPushAll (fetchOkState s i tid t content).log =
      countPushAll s.log := by
    rw [hlog]
    unfold countPushAll
    rw [List.countP_cons, List.countP_cons]
    rfl
  have hcAP : countAckPAll (fetchOkState s i tid t content).log =
      countAckPAll s.log := by
    rw [hlog]
    unfold countAckPAll
    rw [List.countP_cons, List.countP_cons]
    rfl
  have hcPO : countPushOther (fetchOkState s i tid t content).log =
      countPushOther s.log := by
    rw [hlog]
    unfold countPushOther
    rw [List.countP_cons, List.countP_cons]
    rfl
  refine ⟨?_, ?_, ?_, ?_, ?_, ?_, ?_, ?_, ?_, ?_, ?_, ?_⟩
  · intro i' pc tid0 hcc hcs
    have hcc' : (setC s i (CPc.checkNow tid)).crawlers.get? i' = some pc := by
      simp only [setC]
      rw [← hcrawlers]
      exact hcc
    rcases crawlers_set_cases s i _ i' pc hcc' with ⟨he, hpc⟩ | ⟨he, hold⟩
    · subst he
      rw [← hpc] at hcs
      simp [csTid] at hcs
      subst hcs
      refine ⟨t, by rw [hheapP]; exact ht, ?_⟩
      rw [hlockpres]
      exact hlock
    · obtain ⟨t0, h1, h2⟩ := hs.lockPc i' pc tid0 hold hcs
      exact ⟨t0, by rw [hheapP]; exact h1, by rw [hlockpres]; exact h2⟩
  · intro f n
    rw [hlog]
    unfold countFetch
    rw [List.count_cons, List.count_cons]
    have hpr : (Event.printAdding t.folder t.name == Event.fetch f n) =
        false := by
      refine beq_eq_false_iff_ne.mpr ?_
      intro hx
      exact Event.noConfusion hx
    rw [hpr, if_neg Bool.false_ne_true]
    by_cases hff : Event.fetch t.folder t.name = Event.fetch f n
    · injection hff with h1 h2
      subst h1
      subst h2
      have h0 : s.log.count (Event.fetch t.folder t.name) = 0 := by
        by_contra hne
        have hge : 1 ≤ countFetch s.log t.folder t.name := by
          unfold countFetch; omega
        exact hfresh (hs.fetchLocal _ _ hge)
      rw [h0, beq_self_eq_true, if_pos rfl]
    · have hbe : (Event.fetch t.folder t.name == Event.fetch f n) = false :=
        beq_eq_false_iff_ne.mpr hff
      rw [hbe, if_neg Bool.false_ne_true]
      have := hs.fetchOnce f n
      unfold countFetch at this
      omega
  · intro f n h
    rw [hv]
    by_cases e : f = t.folder
    · rw [if_pos e]
      by_cases hn : n = t.name
      · rw [hn]
        exact mem_addName _ _
      · refine addName_mono ?_
        refine hs.fetchLocal t.folder n ?_
        rw [hlog] at h
        unfold countFetch at h ⊢
        rw [List.count_cons, List.count_cons] at h
        have hb1 : (Event.fetch t.folder t.name == Event.fetch f n) =
            false := by
          refine beq_eq_false_iff_ne.mpr ?_
          intro hx
          injection hx with hx1 hx2
          exact hn hx2.symm
        have hb2 : (Event.printAdding t.folder t.name == Event.fetch f n) =
            false := by
          refine beq_eq_false_iff_ne.mpr ?_
          intro hx
          exact Event.noConfusion hx
        rw [hb1, hb2, if_neg Bool.false_ne_true] at h
        rw [e] at h
        omega
    · rw [if_neg e]
      refine hs.fetchLocal f n ?_
      rw [hlog] at h
      unfold countFetch at h ⊢
      rw [List.count_cons, List.count_cons] at h
      have hb1 : (Event.fetch t.folder t.name == Event.fetch f n) = false := by
        refine beq_eq_false_iff_ne.mpr ?_
        intro hx
        injection hx with hx1 hx2
        exact e hx1.symm
      have hb2 : (Event.printAdding t.folder t.name == Event.fetch f n) =
          false := by
        refine beq_eq_false_iff_ne.mpr ?_
        intro hx
        exact Event.noConfusion hx
      rw [hb1, hb2, if_neg Bool.false_ne_true] at h
      omega
  · intro i' tid0 t0 hcc hh
    rw [hheapP] at hh
    rw [hv]
    have hcc' : (setC s i (CPc.checkNow tid)).crawlers.get? i' =
        some (.doFetch tid0) := by
      simp only [setC]
      rw [← hcrawlers]
      exact hcc
    rcases crawlers_set_cases s i _ i' _ hcc' with ⟨he, hpc⟩ | ⟨he, hold⟩
    · cases hpc
    · by_cases e2 : t0.folder = t.folder
      · exfalso
        obtain ⟨t2, h1, h2⟩ := hs.lockPc i' _ tid0 hold rfl
        rw [hh] at h1
        cases h1
        rw [e2, hlock] at h2
        cases h2
        exact he rfl
      · rw [if_neg e2]
        exact hs.doFetchFresh i' tid0 t0 hold hh
  · intro f n
    rw [hcP]
    exact hs.pushOnce f n
  · intro f n h
    rw [hcP] at h
    rw [hnowS]
    exact hs.pushNow f n h
  · intro i' tid0 t0 hcc hh
    rw [hheapP] at hh
    rw [hnowS]
    have hcc' : (setC s i (CPc.checkNow tid)).crawlers.get? i' =
        some (.enq tid0) := by
      simp only [setC]
      rw [← hcrawlers]
      exact hcc
    rcases crawlers_set_cases s i _ i' _ hcc' with ⟨he, hpc⟩ | ⟨he, hold⟩
    · cases hpc
    · exact hs.enqFresh i' tid0 t0 hold hh
  · intro i' q b h
    rw [hlog] at h
    rcases List.mem_cons.mp h with h | h
    · cases h
    · rcases List.mem_cons.mp h with h | h
      · cases h
      · exact hs.ackHeld i' q b h
  · rw [huTodoP, hcA, hcPA]
    exact hs.uTodoEq
  · have h1 : countWorkO (fetchOkState s i tid t content) = countWorkO s := by
      unfold countWorkO
      rw [hparsersP, hheapP]
    have h2 : countTodoO (fetchOkState s i tid t content) = countTodoO s := by
      unfold countTodoO
      rw [hqTodoP, hheapP]
    rw [h1, h2, hcAP, hcPO]
    exact hs.ackPBound
  · intro tid0 h
    rw [hqTodoP] at h
    rw [hheapP]
    exact hs.todoValid tid0 h
  · intro j tid0 hc'
    rw [hparsersP] at hc'
    rw [hheapP]
    exact hs.workValid j tid0 hc'

/-- The state after a crawler enqueues a task for parsing (main.py lines
105-109): possibly reload the page from disk, `q_todo.put(task)`, add the
name to `now`.  `m'` is the resulting `memory` dict (the invariant never
looks at it). -/
def enqState (s : St) (m' : List (String × Str)) (i tid : Nat)
    (t : TaskObj) : St :=
  let s1 : St := { s with memory := m' }
  let s2 : St := { s1 with qTodo := s1.qTodo ++ [tid], uTodo := s1.uTodo + 1,
                           log := .push tid t.folder t.name :: s1.log }
  setC (setV s2 t.folder
    { vOf s2 t.folder with
        nowS := addName (vOf s2 t.folder).nowS t.name }) i (.ack tid)

theorem enqState_vOf (s : St) (m' : List (String × Str)) (i tid : Nat)
    (t : TaskObj) (f : Folder) :
    vOf (enqState s m' i tid t) f =
      if f = t.folder then
        { vOf s t.folder with nowS := addName (vOf s t.folder).nowS t.name }
      else vOf s f := by
  obtain ⟨u, fo, na, pr, cb⟩ := t
  cases fo <;> cases f <;> simp [enqState, setC, setV, vOf]

theorem enqState_log (s : St) (m' : List (String × Str)) (i tid : Nat)
    (t : TaskObj) :
    (enqState s m' i tid t).log = .push tid t.folder t.name :: s.log := by
  simp [enqState, setC]

theorem invEnq (s : St) (hs : Inv s) (m' : List (String × Str)) (i tid : Nat)
    (t : TaskObj) (hc : s.crawlers.get? i = some (.enq tid))
    (ht : s.heap.get? tid = some t) :
    Inv (enqState s m' i tid t) := by
  have hfreshN := hs.enqFresh i tid t hc ht
  obtain ⟨t1, ht1, hlock⟩ := hs.lockPc i _ tid hc rfl
  rw [ht] at ht1
  cases ht1
  have hv := enqState_vOf s m' i tid t
  have hlockpres : ∀ f, (vOf (enqState s m' i tid t) f).lock =
      (vOf s f).lock := by
    intro f; rw [hv]; split
    · rename_i he; rw [he]
    · rfl
  have hlocS : ∀ f, (vOf (enqState s m' i tid t) f).localS =
      (vOf s f).localS := by
    intro f; rw [hv]; split
    · rename_i he; rw [he]
    · rfl
  have hcrawlers : (enqState s m' i tid t).crawlers =
      s.crawlers.set i (.ack tid) := by
    simp [enqState, setC]
  have hheapP : (enqState s m' i tid t).heap = s.heap := by
    simp [enqState, setC]
  have hqTodoP : (enqState s m' i tid t).qTodo = s.qTodo ++ [tid] := by
    simp [enqState, setC]
  have huTodoP : (enqState s m' i tid t).uTodo = s.uTodo + 1 := by
    simp [enqState, setC]
  have hparsersP : (enqState s m' i tid t).parsers = s.parsers := by
    simp [enqState, setC]
  have hlog := enqState_log s m' i tid t
  have hcF : ∀ f n, countFetch (enqState s m' i tid t).log f n =
      countFetch s.log f n := by
    intro f n
    rw [hlog]
    unfold countFetch
    rw [List.count_cons]
    have hb : (Event.push tid t.folder t.name == Event.fetch f n) = false :=
      beq_eq_false_iff_ne.mpr fun hx => Event.noConfusion hx
    rw [hb, if_neg Bool.false_ne_true]
    omega
  have hcA : countAckTodo (enqState s m' i tid t).log =
      countAckTodo s.log := by
    rw [hlog]
    unfold countAckTodo
    rw [List.countP_cons]
    rfl
  have hcPA : countPushAll (enqState s m' i tid t).log =
      countPushAll s.log + 1 := by
    rw [hlog]
    unfold countPushAll
    rw [List.countP_cons]
    rfl
  have hcAP : countAckPAll (enqState s m' i tid t).log =
      countAckPAll s.log := by
    rw [hlog]
    unfold countAckPAll
    rw [List.countP_cons]
    rfl
  have hcPO : countPushOther (enqState s m' i tid t).log =
      countPushOther s.log + bNat (!(t.folder == Folder.hackathons)) := by
    rw [hlog]
    unfold countPushOther
    rw [List.countP_cons]
    rfl
  refine ⟨?_, ?_, ?_, ?_, ?_, ?_, ?_, ?_, ?_, ?_, ?_, ?_⟩
  · intro i' pc tid0 hcc hcs
    have hcc' : (setC s i (CPc.ack tid)).crawlers.get? i' = some pc := by
      simp only [setC]
      rw [← hcrawlers]
      exact hcc
    rcases crawlers_set_cases s i _ i' pc hcc' with ⟨he, hpc⟩ | ⟨he, hold⟩
    · subst he
      rw [← hpc] at hcs
      simp [csTid] at hcs
      subst hcs
      refine ⟨t, by rw [hheapP]; exact ht, ?_⟩
      rw [hlockpres]
      exact hlock
    · obtain ⟨t0, h1, h2⟩ := hs.lockPc i' pc tid0 hold hcs
      exact ⟨t0, by rw [hheapP]; exact h1, by rw [hlockpres]; exact h2⟩
  · intro f n
    rw [hcF]
    exact hs.fetchOnce f n
  · intro f n h
    rw [hcF] at h
    rw [hlocS]
    exact hs.fetchLocal f n h
  · intro i' tid0 t0 hcc hh
    rw [hheapP] at hh
    rw [hlocS]
    have hcc' : (setC s i (CPc.ack tid)).crawlers.get? i' =
        some (.doFetch tid0) := by
      simp only [setC]
      rw [← hcrawlers]
      exact hcc
    rcases crawlers_set_cases s i _ i' _ hcc' with ⟨he, hpc⟩ | ⟨he, hold⟩
    · cases hpc
    · exact hs.doFetchFresh i' tid0 t0 hold hh
  · intro f n
    rw [hlog]
    unfold countPushName
    rw [List.countP_cons]
    have hred : pushNameP f n (Event.push tid t.folder t.name) =
        (t.folder == f && t.name == n) := rfl
    rw [hred]
    by_cases hp : (t.folder == f && t.name == n) = true
    · rw [hp, if_pos rfl]
      simp only [Bool.and_eq_true, beq_iff_eq] at hp
      obtain ⟨h1, h2⟩ := hp
      subst h1
      subst h2
      have h0 : List.countP (pushNameP t.folder t.name) s.log = 0 := by
        by_contra hne
        have hge : 1 ≤ countPushName s.log t.folder t.name := by
          unfold countPushName; omega
        exact hfreshN (hs.pushNow _ _ hge)
      rw [h0]
    · rw [Bool.of_not_eq_true hp, if_neg Bool.false_ne_true]
      have := hs.pushOnce f n
      unfold countPushName at this
      omega
  · intro f n h
    rw [hv]
    by_cases e : f = t.folder
    · rw [if_pos e]
      by_cases hn : n = t.name
      · rw [hn]
        exact mem_addName _ _
      · refine addName_mono ?_
        refine hs.pushNow t.folder n ?_
        rw [hlog] at h
        unfold countPushName at h ⊢
        rw [List.countP_cons] at h
        have hred : pushNameP f n (Event.push tid t.folder t.name) =
            (t.folder == f && t.name == n) := rfl
        have hfalse : (t.folder == f && t.name == n) = false := by
          simp only [Bool.and_eq_false_iff, beq_eq_false_iff_ne]
          exact Or.inr fun hx => hn hx.symm
        rw [hred, hfalse, if_neg Bool.false_ne_true] at h
        rw [e] at h
        omega
    · rw [if_neg e]
      refine hs.pushNow f n ?_
      rw [hlog] at h
      unfold countPushName at h ⊢
      rw [List.countP_cons] at h
      have hred : pushNameP f n (Event.push tid t.folder t.name) =
          (t.folder == f && t.name == n) := rfl
      have hfalse : (t.folder == f && t.name == n) = false := by
        simp only [Bool.and_eq_false_iff, beq_eq_false_iff_ne]
        exact Or.inl fun hx => e hx.symm
      rw [hred, hfalse, if_neg Bool.false_ne_true] at h
      omega
  · intro i' tid0 t0 hcc hh
    rw [hheapP] at hh
    rw [hv]
    have hcc' : (setC s i (CPc.ack tid)).crawlers.get? i' =
        some (.enq tid0) := by
      simp only [setC]
      rw [← hcrawlers]
      exact hcc
    rcases crawlers_set_cases s i _ i' _ hcc' with ⟨he, hpc⟩ | ⟨he, hold⟩
    · cases hpc
    · by_cases e2 : t0.folder = t.folder
      · exfalso
        obtain ⟨t2, h1, h2⟩ := hs.lockPc i' _ tid0 hold rfl
        rw [hh] at h1
        cases h1
        rw [e2, hlock] at h2
        cases h2
        exact he rfl
      · rw [if_neg e2]
        exact hs.enqFresh i' tid0 t0 hold hh
  · intro i' q b h
    rw [hlog] at h
    rcases List.mem_cons.mp h with h | h
    · cases h
    · exact hs.ackHeld i' q b h
  · rw [huTodoP, hcA, hcPA]
    have := hs.uTodoEq
    omega
  · have h1 : countWorkO (enqState s m' i tid t) = countWorkO s := by
      unfold countWorkO
      rw [hparsersP, hheapP]
    have h2 : countTodoO (enqState s m' i tid t) =
        countTodoO s + bNat (todoP s.heap tid) := by
      unfold countTodoO
      rw [hqTodoP, hheapP]
      rw [List.countP_append, List.countP_cons]
      simp [bNat]
    have h3 : todoP s.heap tid = !(t.folder == Folder.hackathons) := by
      unfold todoP folderAt
      rw [ht]
    rw [h1, h2, hcAP, hcPO, h3]
    have := hs.ackPBound
    omega
  · intro tid0 h
    rw [hqTodoP] at h
    rw [hheapP]
    rcases List.mem_append.mp h with h | h
    · exact hs.todoValid tid0 h
    · rw [List.mem_singleton.mp h]
      exact (List.get?_eq_some.mp ht).1
  · intro j tid0 hc'
    rw [hparsersP] at hc'
    rw [hheapP]
    exact hs.workValid j tid0 hc'

/-- The state after a successful crawler `task['done_callback']()`
(main.py line 112), still inside the `with` block. -/
def ackOkState (s : St) (i tid : Nat) (q : QId) (held : Bool) : St :=
  setC { decU s q with log := .ackC i q held :: s.log } i (.unlock tid)

theorem invAckOk (s : St) (hs : Inv s) (i tid : Nat) (t : TaskObj)
    (hc : s.crawlers.get? i = some (.ack tid))
    (ht : s.heap.get? tid = some t)
    (hnz : ¬uOf s t.doneCallback = 0) :
    Inv (ackOkState s i tid t.doneCallback
      (decide ((vOf s t.folder).lock = some i))) := by
  obtain ⟨t1, ht1, hlock⟩ := hs.lockPc i _ tid hc rfl
  rw [ht] at ht1
  cases ht1
  have hheld : decide ((vOf s t.folder).lock = some i) = true :=
    decide_eq_true hlock
  set q := t.doneCallback with hqdef
  set b := decide ((vOf s t.folder).lock = some i) with hbdef
  have hv : ∀ f, vOf (ackOkState s i tid q b) f = vOf s f := by
    intro f; cases q <;> cases f <;> rfl
  have hcrawlers : (ackOkState s i tid q b).crawlers =
      s.crawlers.set i (.unlock tid) := by
    cases q <;> simp [ackOkState, setC]
  have hheapP : (ackOkState s i tid q b).heap = s.heap := by
    cases q <;> simp [ackOkState, setC]
  have hqTodoP : (ackOkState s i tid q b).qTodo = s.qTodo := by
    cases q <;> simp [ackOkState, setC]
  have hparsersP : (ackOkState s i tid q b).parsers = s.parsers := by
    cases q <;> simp [ackOkState, setC]
  have hlog : (ackOkState s i tid q b).log = .ackC i q b :: s.log := by
    cases q <;> simp [ackOkState, setC]
  have huTodoP : (ackOkState s i tid q b).uTodo =
      if q = .todo then s.uTodo - 1 else s.uTodo := by
    show (decU s q).uTodo = _
    exact uTodo_decU s q
  have hcF : ∀ f n, countFetch (ackOkState s i tid q b).log f n =
      countFetch s.log f n := by
    intro f n
    rw [hlog]
    unfold countFetch
    rw [List.count_cons]
    have hb : (Event.ackC i q b == Event.fetch f n) = false :=
      beq_eq_false_iff_ne.mpr fun hx => Event.noConfusion hx
    rw [hb, if_neg Bool.false_ne_true]
    omega
  have hcP : ∀ f n, countPushName (ackOkState s i tid q b).log f n =
      countPushName s.log f n := by
    intro f n
    rw [hlog]
    unfold countPushName
    rw [List.countP_cons]
    rfl
  have hcPA : countPushAll (ackOkState s i tid q b).log =
      countPushAll s.log := by
    rw [hlog]
    unfold countPushAll
    rw [List.countP_cons]
    rfl
  have hcAP : countAckPAll (ackOkState s i tid q b).log =
      countAckPAll s.log := by
    rw [hlog]
    unfold countAckPAll
    rw [List.countP_cons]
    rfl
  have hcPO : countPushOther (ackOkState s i tid q b).log =
      countPushOther s.log := by
    rw [hlog]
    unfold countPushOther
    rw [List.countP_cons]
    rfl
  refine ⟨?_, ?_, ?_, ?_, ?_, ?_, ?_, ?_, ?_, ?_, ?_, ?_⟩
  · intro i' pc tid0 hcc hcs
    have hcc' : (setC s i (CPc.unlock tid)).crawlers.get? i' = some pc := by
      simp only [setC]
      rw [← hcrawlers]
      exact hcc
    rcases crawlers_set_cases s i _ i' pc hcc' with ⟨he, hpc⟩ | ⟨he, hold⟩
    · subst he
      rw [← hpc] at hcs
      simp [csTid] at hcs
      subst hcs
      refine ⟨t, by rw [hheapP]; exact ht, ?_⟩
      rw [hv]
      exact hlock
    · obtain ⟨t0, h1, h2⟩ := hs.lockPc i' pc tid0 hold hcs
      exact ⟨t0, by rw [hheapP]; exact h1, by rw [hv]; exact h2⟩
  · intro f n
    rw [hcF]
    exact hs.fetchOnce f n
  · intro f n h
    rw [hcF] at h
    rw [hv]
    exact hs.fetchLocal f n h
  · intro i' tid0 t0 hcc hh
    rw [hheapP] at hh
    rw [hv]
    have hcc' : (setC s i (CPc.unlock tid)).crawlers.get? i' =
        some (.doFetch tid0) := by
      simp only [setC]
      rw [← hcrawlers]
      exact hcc
    rcases crawlers_set_cases s i _ i' _ hcc' with ⟨he, hpc⟩ | ⟨he, hold⟩
    · cases hpc
    · exact hs.doFetchFresh i' tid0 t0 hold hh
  · intro f n
    rw [hcP]
    exact hs.pushOnce f n
  · intro f n h
    rw [hcP] at h
    rw [hv]
    exact hs.pushNow f n h
  · intro i' tid0 t0 hcc hh
    rw [hheapP] at hh
    rw [hv]
    have hcc' : (setC s i (CPc.unlock tid)).crawlers.get? i' =
        some (.enq tid0) := by
      simp only [setC]
      rw [← hcrawlers]
      exact hcc
    rcases crawlers_set_cases s i _ i' _ hcc' with ⟨he, hpc⟩ | ⟨he, hold⟩
    · cases hpc
    · exact hs.enqFresh i' tid0 t0 hold hh
  · intro i' q' b' h
    rw [hlog] at h
    rcases List.mem_cons.mp h with h | h
    · injection h with h1 h2 h3
      rw [h3]
      exact hheld
    · exact hs.ackHeld i' q' b' h
  · rw [huTodoP]
    have hev := hs.uTodoEq
    by_cases hq : q = QId.todo
    · have h1 : countAckTodo (ackOkState s i tid q b).log =
          countAckTodo s.log + 1 := by
        rw [hlog]
        unfold countAckTodo
        rw [List.countP_cons]
        simp [ackTodoP, hq]
      have hzz : s.uTodo ≠ 0 := by
        rw [hq] at hnz
        exact hnz
      rw [h1, hcPA, if_pos hq]
      omega
    · have h1 : countAckTodo (ackOkState s i tid q b).log =
          countAckTodo s.log := by
        rw [hlog]
        unfold countAckTodo
        rw [List.countP_cons]
        simp [ackTodoP, hq]
      rw [h1, hcPA, if_neg hq]
      omega
  · have h1 : countWorkO (ackOkState s i tid q b) = countWorkO s := by
      unfold countWorkO
      rw [hparsersP, hheapP]
    have h2 : countTodoO (ackOkState s i tid q b) = countTodoO s := by
      unfold countTodoO
      rw [hqTodoP, hheapP]
    rw [h1, h2, hcAP, hcPO]
    exact hs.ackPBound
  · intro tid0 h
    rw [hqTodoP] at h
    rw [hheapP]
    exact hs.todoValid tid0 h
  · intro j tid0 hc'
    rw [hparsersP] at hc'
    rw [hheapP]
    exact hs.workValid j tid0 hc'

/-- Any crawler step preserves the invariant. -/
theorem invCrawl (fetch : String → Option Str)
    (readFile : Folder → String → Str) (s : St) (i : Nat) (hs : Inv s) :
    Inv (crawlStep fetch readFile s i) := by
  unfold crawlStep
  split
  · exact hs
  · exact hs
  · exact hs
  · -- idle: poll the typed queues
    rename_i hc
    split
    rename_i r qh qd qk heq
    have hvq : ∀ f,
        vOf { s with qHacker := qh, qDevpost := qd, qHackathon := qk } f =
          vOf s f := by
      intro f; cases f <;> rfl
    have hold : ∀ pc, s.crawlers.get? i = some pc → csTid pc = none := by
      intro pc hpc
      rw [hc] at hpc
      injection hpc with h1
      rw [← h1]
      rfl
    split
    · -- sentinel from q_hacker: Stop, driver.quit, exit
      refine invSetCNonCS _ ?_ i .stopped ?_ rfl
      · refine invTransfer s _ hs rfl rfl rfl rfl rfl ?_
          [Event.driverQuit i] rfl ?_
        · intro f; cases f <;> rfl
        · intro e he
          rw [List.mem_singleton.mp he]
          trivial
      · exact hold
    · -- sentinel from q_devpost / q_hackathon: TypeError, thread dies
      refine invSetCNonCS _ ?_ i .dead ?_ rfl
      · exact invTransfer s _ hs rfl rfl rfl rfl rfl hvq [] rfl
          (by intro e he; cases he)
      · exact hold
    · -- all queues empty: log and retry
      refine invTransfer s _ hs rfl rfl rfl rfl rfl ?_
        [Event.logNoTask i] rfl ?_
      · intro f; cases f <;> rfl
      · intro e he
        rw [List.mem_singleton.mp he]
        trivial
    · -- a task: append to the heap, move to hasTask
      rename_i t
      refine invSetCNonCS _ ?_ i (.hasTask _) ?_ rfl
      · refine invHeapAppend _ ?_ t
        exact invTransfer s _ hs rfl rfl rfl rfl rfl hvq [] rfl
          (by intro e he; cases he)
      · exact hold
  · -- hasTask: acquire the per-type lock
    rename_i tid hc
    split
    · exact hs
    · rename_i t ht
      split
      · exact hs
      · rename_i hlock
        exact invAcquire s hs i tid t hc ht hlock
  · -- inCS: membership test on `local`
    rename_i tid hc
    split
    · exact hs
    · rename_i t ht
      split
      · -- already fetched: go to the `now` test
        exact invSetCSameCS s hs i tid _ _ hc rfl rfl
          (by intro t' hpc; cases hpc) (by intro t' hpc; cases hpc)
      · -- fresh name: go fetch
        rename_i hmem
        refine invSetCSameCS s hs i tid _ _ hc rfl rfl ?_
          (by intro t' hpc; cases hpc)
        intro t' hpc hht
        rw [hht] at ht
        injection ht with ht
        rw [ht]
        exact hmem
  · -- doFetch: external fetch, success or driver error
    rename_i tid hc
    split
    · exact hs
    · rename_i t ht
      split
      · -- driver error: lock released by the `with` block, thread dies
        rename_i hfail
        refine invRelease _ ?_ i tid t (.doFetch tid) .dead hc rfl ht rfl
        refine invTransfer s _ hs rfl rfl rfl rfl rfl ?_
          [Event.printAdding t.folder t.name] rfl ?_
        · intro f; cases f <;> rfl
        · intro e he
          rw [List.mem_singleton.mp he]
          trivial
      · rename_i content hok
        exact invFetchOk s hs i tid t content hc ht
  · -- checkNow: membership test on `now`
    rename_i tid hc
    split
    · exact hs
    · rename_i t ht
      split
      · exact invSetCSameCS s hs i tid _ _ hc rfl rfl
          (by intro t' hpc; cases hpc) (by intro t' hpc; cases hpc)
      · rename_i hmem
        refine invSetCSameCS s hs i tid _ _ hc rfl rfl
          (by intro t' hpc; cases hpc) ?_
        intro t' hpc hht
        rw [hht] at ht
        injection ht with ht
        rw [ht]
        exact hmem
  · -- enq: reload from disk if needed, push to q_todo, add to `now`
    rename_i tid hc
    split
    · exact hs
    · rename_i t ht
      split
      · exact invEnq s hs
          (minsert s.memory t.name (readFile t.folder t.name)) i tid t hc ht
      · exact invEnq s hs s.memory i tid t hc ht
  · -- ack: done_callback(), success or ValueError
    rename_i tid hc
    split
    · exact hs
    · rename_i t ht
      split
      · exact invRelease s hs i tid t (.ack tid) .dead hc rfl ht rfl
      · rename_i hnz
        exact invAckOk s hs i tid t hc ht hnz
  · -- unlock: leave the `with` block
    rename_i tid hc
    split
    · exact hs
    · rename_i t ht
      exact invRelease s hs i tid t (.unlock tid) .idle hc rfl ht rfl

/-- Every step preserves the invariant. -/
theorem invStep (fetch : String → Option Str)
    (readFile : Folder → String → Str) (s : St) (a : Step) (hs : Inv s) :
    Inv (step fetch readFile s a) := by
  cases a with
  | crawl i => exact invCrawl fetch readFile s i hs
  | parse j => exact invParse s j hs

/-- The invariant holds along every schedule. -/
theorem invRun (fetch : String → Option Str)
    (readFile : Folder → String → Str) (s : St) (steps : List Step)
    (hs : Inv s) : Inv (run fetch readFile s steps) := by
  induction steps generalizing s with
  | nil => exact hs
  | cons a rest ih => exact ih _ (invStep fetch readFile s a hs)

/-! ## Concrete collaborators for witness runs -/

/-- A fetch driver that always returns a one-character page. -/
def fetchSome : String → Option Str := fun _ => some ['p']

/-- A fetch driver that always fails. -/
def fetchNone : String → Option Str := fun _ => none

/-- A trivial disk cache. -/
def readFile0 : Folder → String → Str := fun _ _ => []

/-! ## C9 — extractor degradation -/

/-- A devpost page line whose profile-link marker is present but whose
display-name slice target is missing: `line.split(s)[1]` with no `s`
occurrence in `line` raises `IndexError` (main.py line 213). -/
def badProfileLine : String := "<a class=\"user-profile-link\" href=\"/x"

/-- A fetch driver serving the malformed profile line. -/
def fetchBad : String → Option Str := fun _ => some badProfileLine.data

/-- A schedule driving one crawler through a whole devpost task and then one
parser through `get_parser_task` and the parse body. -/
def c9Trace : List Step :=
  [.crawl 0, .crawl 0, .crawl 0, .crawl 0, .crawl 0, .crawl 0, .crawl 0,
   .crawl 0, .parse 0, .parse 0]

/-- The engine state after parsing the malformed devpost page. -/
def c9Final : St :=
  run fetchBad readFile0
    (initSt [] [QItem.item ⟨"proj1", none, none⟩] [] [] [] []) c9Trace

/-- If no line of the content holds any of `parse_hacker`'s three markers,
every loop iteration is a no-op. -/
theorem hackerLine_no_markers (username : String) (lines : List Str)
    (ix : Nat) (line : Str) (st : HackerInfo)
    (h1 : pyIn ("<small>(" ++ username ++ ")").data line = false)
    (h2 : pyIn "<a target=\"_blank\" rel=\"nofollow\" href=\"http".data line =
      false)
    (h3 : pyIn "<a class=\"block-wrapper-link fade link-to-software\" href=\"".data
        line = false) :
    hackerLine username lines ix line st = .ok st := by
  unfold hackerLine
  rw [if_neg (by rw [h1]; exact Bool.false_ne_true),
      if_neg (by rw [h2]; exact Bool.false_ne_true),
      if_neg (by rw [h3]; exact Bool.false_ne_true)]

/-- Marker-free content leaves `parse_hacker`'s scan state untouched. -/
theorem hackerLoop_no_markers (username : String) (lines : List Str)
    (ix : Nat) (todo : List Str) (st : HackerInfo)
    (h : ∀ line ∈ todo,
      pyIn ("<small>(" ++ username ++ ")").data line = false ∧
      pyIn "<a target=\"_blank\" rel=\"nofollow\" href=\"http".data line =
        false ∧
      pyIn "<a class=\"block-wrapper-link fade link-to-software\" href=\"".data
        line = false) :
    hackerLoop username lines ix todo st = .ok st := by
  induction todo generalizing ix with
  | nil => rfl
  | cons line rest ih =>
    have hl := h line (List.mem_cons_self _ _)
    have hline := hackerLine_no_markers username lines ix line st
      hl.1 hl.2.1 hl.2.2
    show (match hackerLine username lines ix line st with
      | .error e => Except.error e
      | .ok st2 => hackerLoop username lines (ix + 1) rest st2) = .ok st
    rw [hline]
    exact ih (ix + 1) (fun l hm => h l (List.mem_cons_of_mem _ hm))

/-- If a line holds neither of `parse_devpost`'s two markers, the iteration
is a no-op. -/
theorem devpostLine_no_markers (lines : List Str) (ix : Nat) (line : Str)
    (st : DevpostInfo)
    (h1 : pyIn "<a class=\"user-profile-link\" href=\"".data line = false)
    (h2 : pyIn "software-list-content".data line = false) :
    devpostLine lines ix line st = .ok st := by
  unfold devpostLine
  rw [if_neg (by rw [h1, Bool.false_and]; exact Bool.false_ne_true)]
  unfold devpostLineB
  rw [if_neg (by rw [h2]; exact Bool.false_ne_true)]

/-- Marker-free content leaves `parse_devpost`'s scan state untouched. -/
theorem devpostLoop_no_markers (lines : List Str) (ix : Nat)
    (todo : List Str) (st : DevpostInfo)
    (h : ∀ line ∈ todo,
      pyIn "<a class=\"user-profile-link\" href=\"".data line = false ∧
      pyIn "software-list-content".data line = false) :
    devpostLoop lines ix todo st = .ok st := by
  induction todo generalizing ix with
  | nil => rfl
  | cons line rest ih =>
    have hl := h line (List.mem_cons_self _ _)
    have hline := devpostLine_no_markers lines ix line st hl.1 hl.2
    show (match devpostLine lines ix line st with
      | .error e => Except.error e
      | .ok st2 => devpostLoop lines (ix + 1) rest st2) = .ok st
    rw [hline]
    exact ih (ix + 1) (fun l hm => h l (List.mem_cons_of_mem _ hm))

/-- Per-field defaulting, line level: an iteration on a line without the
display-name marker cannot change `displayName`, whatever else it does. -/
theorem hackerLine_displayName (username : String) (lines : List Str)
    (ix : Nat) (line : Str) (st st2 : HackerInfo)
    (h1 : pyIn ("<small>(" ++ username ++ ")").data line = false)
    (hok : hackerLine username lines ix line st = .ok st2) :
    st2.displayName = st.displayName := by
  unfold hackerLine at hok
  rw [if_neg (by rw [h1]; exact Bool.false_ne_true)] at hok
  split at hok
  · split at hok
    · cases hok
    · injection hok with hok
      rw [← hok]
  · split at hok
    · split at hok
      · cases hok
      split at hok
      · cases hok
      injection hok with hok
      rw [← hok]
    · injection hok with hok
      rw [← hok]

/-- An iteration on a line without the social-link marker cannot change
`socialURLs`. -/
theorem hackerLine_social (username : String) (lines : List Str)
    (ix : Nat) (line : Str) (st st2 : HackerInfo)
    (h2 : pyIn "<a target=\"_blank\" rel=\"nofollow\" href=\"http".data line =
      false)
    (hok : hackerLine username lines ix line st = .ok st2) :
    st2.socialURLs = st.socialURLs := by
  unfold hackerLine at hok
  split at hok
  · split at hok
    · cases hok
    · injection hok with hok
      rw [← hok]
  · rw [if_neg (by rw [h2]; exact Bool.false_ne_true)] at hok
    split at hok
    · split at hok
      · cases hok
      split at hok
      · cases hok
      injection hok with hok
      rw [← hok]
    · injection hok with hok
      rw [← hok]

/-- An iteration on a line without the software-link marker cannot change
`devposts`. -/
theorem hackerLine_devposts (username : String) (lines : List Str)
    (ix : Nat) (line : Str) (st st2 : HackerInfo)
    (h3 : pyIn "<a class=\"block-wrapper-link fade link-to-software\" href=\"".data
        line = false)
    (hok : hackerLine username lines ix line st = .ok st2) :
    st2.devposts = st.devposts := by
  unfold hackerLine at hok
  split at hok
  · split at hok
    · cases hok
    · injection hok with hok
      rw [← hok]
  · split at hok
    · split at hok
      · cases hok
      · injection hok with hok
        rw [← hok]
    · rw [if_neg (by rw [h3]; exact Bool.false_ne_true)] at hok
      injection hok with hok
      rw [← hok]

/-- The `"software-list-content"` branch never touches the hacker dict. -/
theorem devpostLineB_hackers (lines : List Str) (ix : Nat) (line : Str)
    (st st2 : DevpostInfo)
    (hok : devpostLineB lines ix line st = .ok st2) :
    st2.hackers = st.hackers := by
  unfold devpostLineB at hok
  split at hok
  · split at hok
    · cases hok
    split at hok
    · cases hok
    split at hok
    · cases hok
    split at hok
    · cases hok
    split at hok
    · cases hok
    split at hok
    · cases hok
    split at hok
    · cases hok
    injection hok with hok
    rw [← hok]
  · injection hok with hok
    rw [← hok]

/-- An iteration on a line without the software-list marker cannot change
the hackathon fields. -/
theorem devpostLineB_hackathon (lines : List Str) (ix : Nat) (line : Str)
    (st st2 : DevpostInfo)
    (h2 : pyIn "software-list-content".data line = false)
    (hok : devpostLineB lines ix line st = .ok st2) :
    st2.hackathonName = st.hackathonName ∧
    st2.hackathonDisplayName = st.hackathonDisplayName := by
  unfold devpostLineB at hok
  rw [if_neg (by rw [h2]; exact Bool.false_ne_true)] at hok
  injection hok with hok
  rw [← hok]
  exact ⟨rfl, rfl⟩

/-- An iteration on a line without the profile-link marker cannot change the
hacker dict. -/
theorem devpostLine_hackers (lines : List Str) (ix : Nat) (line : Str)
    (st st2 : DevpostInfo)
    (h1 : pyIn "<a class=\"user-profile-link\" href=\"".data line = false)
    (hok : devpostLine lines ix line st = .ok st2) :
    st2.hackers = st.hackers := by
  unfold devpostLine at hok
  rw [if_neg (by rw [h1, Bool.false_and]; exact Bool.false_ne_true)] at hok
  exact devpostLineB_hackers lines ix line st st2 hok

/-- Per-field, full iteration: without the software-list marker the
hackathon fields survive the profile branch and the fall-through alike. -/
theorem devpostLine_hackathon (lines : List Str) (ix : Nat) (line : Str)
    (st st2 : DevpostInfo)
    (h2 : pyIn "software-list-content".data line = false)
    (hok : devpostLine lines ix line st = .ok st2) :
    st2.hackathonName = st.hackathonName ∧
    st2.hackathonDisplayName = st.hackathonDisplayName := by
  unfold devpostLine at hok
  split at hok
  · split at hok
    · cases hok
    split at hok
    · cases hok
    split at hok
    · cases hok
    split at hok
    · cases hok
    split at hok
    · cases hok
    split at hok
    · exact devpostLineB_hackathon lines ix line st st2 h2 hok
    · injection hok with hok
      rw [← hok]
      exact ⟨rfl, rfl⟩
  · exact devpostLineB_hackathon lines ix line st st2 h2 hok

/-- Per-field defaulting through the whole `parse_hacker` scan loop. -/
theorem hackerLoop_displayName (username : String) (lines : List Str)
    (ix : Nat) (todo : List Str) (st st2 : HackerInfo)
    (h : ∀ line ∈ todo,
      pyIn ("<small>(" ++ username ++ ")").data line = false)
    (hok : hackerLoop username lines ix todo st = .ok st2) :
    st2.displayName = st.displayName := by
  induction todo generalizing ix st with
  | nil =>
    unfold hackerLoop at hok
    injection hok with e
    rw [← e]
  | cons line rest ih =>
    unfold hackerLoop at hok
    split at hok
    · cases hok
    · rename_i st1 hline
      rw [ih (ix + 1) st1 (fun l hm => h l (List.mem_cons_of_mem _ hm)) hok]
      exact hackerLine_displayName username lines ix line st st1
        (h line (List.mem_cons_self _ _)) hline

theorem hackerLoop_social (username : String) (lines : List Str)
    (ix : Nat) (todo : List Str) (st st2 : HackerInfo)
    (h : ∀ line ∈ todo,
      pyIn "<a target=\"_blank\" rel=\"nofollow\" href=\"http".data line =
        false)
    (hok : hackerLoop username lines ix todo st = .ok st2) :
    st2.socialURLs = st.socialURLs := by
  induction todo generalizing ix st with
  | nil =>
    unfold hackerLoop at hok
    injection hok with e
    rw [← e]
  | cons line rest ih =>
    unfold hackerLoop at hok
    split at hok
    · cases hok
    · rename_i st1 hline
      rw [ih (ix + 1) st1 (fun l hm => h l (List.mem_cons_of_mem _ hm)) hok]
      exact hackerLine_social username lines ix line st st1
        (h line (List.mem_cons_self _ _)) hline

theorem hackerLoop_devposts (username : String) (lines : List Str)
    (ix : Nat) (todo : List Str) (st st2 : HackerInfo)
    (h : ∀ line ∈ todo,
      pyIn "<a class=\"block-wrapper-link fade link-to-software\" href=\"".data
        line = false)
    (hok : hackerLoop username lines ix todo st = .ok st2) :
    st2.devposts = st.devposts := by
  induction todo generalizing ix st with
  | nil =>
    unfold hackerLoop at hok
    injection hok with e
    rw [← e]
  | cons line rest ih =>
    unfold hackerLoop at hok
    split at hok
    · cases hok
    · rename_i st1 hline
      rw [ih (ix + 1) st1 (fun l hm => h l (List.mem_cons_of_mem _ hm)) hok]
      exact hackerLine_devposts username lines ix line st st1
        (h line (List.mem_cons_self _ _)) hline

/-- Per-field defaulting through the whole `parse_devpost` scan loop. -/
theorem devpostLoop_hackers (lines : List Str) (ix : Nat)
    (todo : List Str) (st st2 : DevpostInfo)
    (h : ∀ line ∈ todo,
      pyIn "<a class=\"user-profile-link\" href=\"".data line = false)
    (hok : devpostLoop lines ix todo st = .ok st2) :
    st2.hackers = st.hackers := by
  induction todo generalizing ix st with
  | nil =>
    unfold devpostLoop at hok
    injection hok with e
    rw [← e]
  | cons line rest ih =>
    unfold devpostLoop at hok
    split at hok
    · cases hok
    · rename_i st1 hline
      rw [ih (ix + 1) st1 (fun l hm => h l (List.mem_cons_of_mem _ hm)) hok]
      exact devpostLine_hackers lines ix line st st1
        (h line (List.mem_cons_self _ _)) hline

theorem devpostLoop_hackathon (lines : List Str) (ix : Nat)
    (todo : List Str) (st st2 : DevpostInfo)
    (h : ∀ line ∈ todo, pyIn "software-list-content".data line = false)
    (hok : devpostLoop lines ix todo st = .ok st2) :
    st2.hackathonName = st.hackathonName ∧
    st2.hackathonDisplayName = st.hackathonDisplayName := by
  induction todo generalizing ix st with
  | nil =>
    unfold devpostLoop at hok
    injection hok with e
    rw [← e]
    exact ⟨rfl, rfl⟩
  | cons line rest ih =>
    unfold devpostLoop at hok
    split at hok
    · cases hok
    · rename_i st1 hline
      have hrest := ih (ix + 1) st1
        (fun l hm => h l (List.mem_cons_of_mem _ hm)) hok
      have hline2 := devpostLine_hackathon lines ix line st st1
        (h line (List.mem_cons_self _ _)) hline
      exact ⟨hrest.1.trans hline2.1, hrest.2.trans hline2.2⟩

/-- A successful final `task_done` from the parser: acknowledgement logged,
parser back to the loop head. -/
theorem finishAck_spec (s : St) (j tid : Nat) (t : TaskObj)
    (ht : s.heap.get? tid = some t) (hu : uOf s t.doneCallback ≠ 0)
    (hj : j < s.parsers.length) :
    (finishAck s j tid).log = Event.ackP j t.doneCallback tid :: s.log ∧
    (finishAck s j tid).parsers.get? j = some PPc.idle := by
  have hred : finishAck s j tid =
      setP { decU s t.doneCallback with
        log := Event.ackP j t.doneCallback tid :: s.log } j PPc.idle := by
    unfold finishAck
    rw [ht]
    show (if uOf s t.doneCallback = 0 then setP s j PPc.dead
      else setP { decU s t.doneCallback with
        log := Event.ackP j t.doneCallback tid :: s.log } j PPc.idle) = _
    rw [if_neg hu]
  rw [hred]
  refine ⟨rfl, ?_⟩
  simp only [setP, parsers_decU]
  exact List.get?_set_eq_of_lt _ hj

/-- Parser-local state after a successful `parse_hacker` body, just before
the final `task_done`: page cache entry dropped, node and edge writes
logged, the discovered devposts enqueued. -/
def hackerDoneSt (s : St) (t : TaskObj) (info : HackerInfo) : St :=
  { s with
    memory := merase s.memory t.name,
    qDevpost := s.qDevpost ++ info.devposts.map (fun d =>
      QItem.item ⟨String.mk d, some ⟨t.name, folderStr t.folder⟩, none⟩),
    uDevpost := s.uDevpost + (info.devposts.map (fun d =>
      QItem.item ⟨String.mk d, some ⟨t.name, folderStr t.folder⟩,
        none⟩)).length,
    log := (info.devposts.map
        (fun d => Event.edgeWrite t.name (String.mk d))).reverse ++
      (Event.nodeHacker t.name :: s.log) }

/-- Parser-local state after a successful `parse_devpost` body, just before
the final `task_done`: page cache entry dropped, node and edge writes
logged, the discovered hackers enqueued. -/
def devpostDoneSt (s : St) (t : TaskObj) (info : DevpostInfo) : St :=
  { s with
    memory := merase s.memory t.name,
    qHacker := s.qHacker ++ info.hackers.map (fun p =>
      QItem.item ⟨String.mk p.1, some ⟨t.name, folderStr t.folder⟩, none⟩),
    uHacker := s.uHacker + (info.hackers.map (fun p =>
      QItem.item ⟨String.mk p.1, some ⟨t.name, folderStr t.folder⟩,
        none⟩)).length,
    log := (info.hackers.map
        (fun p => Event.edgeWrite (String.mk p.1) t.name)).reverse ++
      (Event.nodeDevpost t.name :: s.log) }

/-- C9 counterexample: `parse_devpost` does not degrade gracefully — a page
whose profile-link marker appears without the display-name slice target
raises an uncaught `IndexError` (main.py line 213), and in the engine the
parser dies with no node write and no acknowledgement (`uTodo` stays 1);
also, an absent display-name marker defaults to `"undefined"`, not to the
empty string. -/
theorem C9_counterexample :
    parse_devpost_extract badProfileLine.data =
      Except.error PyErr.indexError ∧
    parse_hacker_extract "u" "".data =
      Except.ok ⟨"undefined".data, [], []⟩ ∧
    "undefined".data ≠ ("".data : Str) ∧
    c9Final.parsers.get? 0 = some PPc.dead ∧
    c9Final.uTodo = 1 ∧
    Event.nodeDevpost "proj1" ∉ c9Final.log ∧
    countAckPAll c9Final.log = 0 :=
  ⟨rfl, rfl, by decide, by decide, by decide, by decide, by decide⟩

/-- C9 (amended): defaulting is per-field, to `"undefined"` for name fields
and to empty collections — whenever extraction succeeds, each field whose
own marker appears on no line keeps its initial value even if the other
markers fire; fully marker-free content yields exactly the initial locals;
and whenever extraction succeeds — for hacker and for devpost tasks alike —
the parser writes the node, acknowledges the task, and returns to its loop
head.  But a malformed marker line raises `IndexError` (see the
counterexample), so degradation is not graceful for every input. -/
theorem C9_graceful_degradation :
    (∀ (username : String) (content : Str),
      (∀ line ∈ pySplit content "\n".data,
        pyIn ("<small>(" ++ username ++ ")").data line = false ∧
        pyIn "<a target=\"_blank\" rel=\"nofollow\" href=\"http".data line =
          false ∧
        pyIn "<a class=\"block-wrapper-link fade link-to-software\" href=\"".data
          line = false) →
      parse_hacker_extract username content =
        Except.ok ⟨"undefined".data, [], []⟩) ∧
    (∀ content : Str,
      (∀ line ∈ pySplit content "\n".data,
        pyIn "<a class=\"user-profile-link\" href=\"".data line = false ∧
        pyIn "software-list-content".data line = false) →
      parse_devpost_extract content =
        Except.ok ⟨"undefined".data, "undefined".data, []⟩) ∧
    (∀ (username : String) (content : Str) (info : HackerInfo),
      parse_hacker_extract username content = Except.ok info →
      ((∀ line ∈ pySplit content "\n".data,
        pyIn ("<small>(" ++ username ++ ")").data line = false) →
        info.displayName = "undefined".data) ∧
      ((∀ line ∈ pySplit content "\n".data,
        pyIn "<a target=\"_blank\" rel=\"nofollow\" href=\"http".data line =
          false) →
        info.socialURLs = []) ∧
      ((∀ line ∈ pySplit content "\n".data,
        pyIn "<a class=\"block-wrapper-link fade link-to-software\" href=\"".data
          line = false) →
        info.devposts = [])) ∧
    (∀ (content : Str) (info : DevpostInfo),
      parse_devpost_extract content = Except.ok info →
      ((∀ line ∈ pySplit content "\n".data,
        pyIn "<a class=\"user-profile-link\" href=\"".data line = false) →
        info.hackers = []) ∧
      ((∀ line ∈ pySplit content "\n".data,
        pyIn "software-list-content".data line = false) →
        info.hackathonName = "undefined".data ∧
        info.hackathonDisplayName = "undefined".data)) ∧
    (∀ (s : St) (j tid : Nat) (t : TaskObj) (content : Str)
        (info : HackerInfo),
      s.parsers.get? j = some (PPc.work tid) →
      s.heap.get? tid = some t →
      t.folder = Folder.hackers →
      List.lookup t.name s.memory = some content →
      parse_hacker_extract t.name content = Except.ok info →
      uOf s t.doneCallback ≠ 0 →
      Event.nodeHacker t.name ∈ (parseStep s j).log ∧
      Event.ackP j t.doneCallback tid ∈ (parseStep s j).log ∧
      (parseStep s j).parsers.get? j = some PPc.idle) ∧
    (∀ (s : St) (j tid : Nat) (t : TaskObj) (content : Str)
        (info : DevpostInfo),
      s.parsers.get? j = some (PPc.work tid) →
      s.heap.get? tid = some t →
      t.folder = Folder.devposts →
      List.lookup t.name s.memory = some content →
      parse_devpost_extract content = Except.ok info →
      uOf s t.doneCallback ≠ 0 →
      Event.nodeDevpost t.name ∈ (parseStep s j).log ∧
      Event.ackP j t.doneCallback tid ∈ (parseStep s j).log ∧
      (parseStep s j).parsers.get? j = some PPc.idle) := by
  refine ⟨?_, ?_, ?_, ?_, ?_, ?_⟩
  · intro username content h
    exact hackerLoop_no_markers username _ 0 _ _ h
  · intro content h
    exact devpostLoop_no_markers _ 0 _ _ h
  · intro username content info hok
    refine ⟨fun h => ?_, fun h => ?_, fun h => ?_⟩
    · exact hackerLoop_displayName username _ 0 _ _ info h hok
    · exact hackerLoop_social username _ 0 _ _ info h hok
    · exact hackerLoop_devposts username _ 0 _ _ info h hok
  · intro content info hok
    exact ⟨fun h => devpostLoop_hackers _ 0 _ _ info h hok,
           fun h => devpostLoop_hackathon _ 0 _ _ info h hok⟩
  · intro s j tid t content info hp ht hf hm hok hu
    have hj : j < s.parsers.length := (List.get?_eq_some.mp hp).1
    have hu4 : uOf (hackerDoneSt s t info) t.doneCallback ≠ 0 := by
      rcases hq : t.doneCallback with _ | _ | _ | _ <;> rw [hq] at hu <;>
        simp only [uOf, hackerDoneSt] at hu ⊢ <;> omega
    obtain ⟨hlog, hpc⟩ :=
      finishAck_spec (hackerDoneSt s t info) j tid t ht hu4 hj
    unfold parseStep
    split
    · rename_i h; rw [hp] at h; simp at h
    · rename_i h; rw [hp] at h; simp at h
    · rename_i h; rw [hp] at h; simp at h
    rename_i tid0 h
    rw [hp] at h
    injection h with h
    injection h with h
    subst h
    split
    · rename_i h2; rw [ht] at h2; simp at h2
    rename_i t0 h2
    rw [ht] at h2
    injection h2 with h2
    subst h2
    split
    · rename_i h3; rw [hm] at h3; simp at h3
    rename_i content0 h3
    rw [hm] at h3
    injection h3 with h3
    subst h3
    split
    · rename_i hfold; rw [hf] at hfold; simp at hfold
    · rename_i hfold
      split
      · rename_i e herr; rw [hok] at herr; simp at herr
      · rename_i info0 hinfo
        rw [hok] at hinfo
        injection hinfo with hinfo
        subst hinfo
        show Event.nodeHacker t.name ∈
            (finishAck (hackerDoneSt s t info) j tid).log ∧
          Event.ackP j t.doneCallback tid ∈
            (finishAck (hackerDoneSt s t info) j tid).log ∧
          (finishAck (hackerDoneSt s t info) j tid).parsers.get? j =
            some PPc.idle
        refine ⟨?_, ?_, hpc⟩
        · rw [hlog]
          refine List.mem_cons_of_mem _ ?_
          show Event.nodeHacker t.name ∈
            (info.devposts.map
              (fun d => Event.edgeWrite t.name (String.mk d))).reverse ++
            (Event.nodeHacker t.name :: s.log)
          exact List.mem_append_right _ (List.mem_cons_self _ _)
        · rw [hlog]
          exact List.mem_cons_self _ _
    · rename_i hfold; rw [hf] at hfold; simp at hfold
  · intro s j tid t content info hp ht hf hm hok hu
    have hj : j < s.parsers.length := (List.get?_eq_some.mp hp).1
    have hu4 : uOf (devpostDoneSt s t info) t.doneCallback ≠ 0 := by
      rcases hq : t.doneCallback with _ | _ | _ | _ <;> rw [hq] at hu <;>
        simp only [uOf, devpostDoneSt] at hu ⊢ <;> omega
    obtain ⟨hlog, hpc⟩ :=
      finishAck_spec (devpostDoneSt s t info) j tid t ht hu4 hj
    unfold parseStep
    split
    · rename_i h; rw [hp] at h; simp at h
    · rename_i h; rw [hp] at h; simp at h
    · rename_i h; rw [hp] at h; simp at h
    rename_i tid0 h
    rw [hp] at h
    injection h with h
    injection h with h
    subst h
    split
    · rename_i h2; rw [ht] at h2; simp at h2
    rename_i t0 h2
    rw [ht] at h2
    injection h2 with h2
    subst h2
    split
    · rename_i h3; rw [hm] at h3; simp at h3
    rename_i content0 h3
    rw [hm] at h3
    injection h3 with h3
    subst h3
    split
    · rename_i hfold; rw [hf] at hfold; simp at hfold
    · rename_i hfold; rw [hf] at hfold; simp at hfold
    · rename_i hfold
      split
      · rename_i e herr; rw [hok] at herr; simp at herr
      · rename_i info0 hinfo
        rw [hok] at hinfo
        injection hinfo with hinfo
        subst hinfo
        show Event.nodeDevpost t.name ∈
            (finishAck (devpostDoneSt s t info) j tid).log ∧
          Event.ackP j t.doneCallback tid ∈
            (finishAck (devpostDoneSt s t info) j tid).log ∧
          (finishAck (devpostDoneSt s t info) j tid).parsers.get? j =
            some PPc.idle
        refine ⟨?_, ?_, hpc⟩
        · rw [hlog]
          refine List.mem_cons_of_mem _ ?_
          show Event.nodeDevpost t.name ∈
            (info.hackers.map
              (fun p => Event.edgeWrite (String.mk p.1) t.name)).reverse ++
            (Event.nodeDevpost t.name :: s.log)
          exact List.mem_append_right _ (List.mem_cons_self _ _)
        · rw [hlog]
          exact List.mem_cons_self _ _

/-- A state with one parser mid-body on a live hacker task whose page is
cached. -/
def c9WorkSt : St :=
  { qHacker := [], qDevpost := [], qHackathon := [], qTodo := [],
    uHacker := 0, uDevpost := 0, uHackathon := 0, uTodo := 1,
    heap := [⟨"https://www.devpost.com/u", Folder.hackers, "u", NO_FROM,
      QId.todo⟩],
    vHackers := ⟨none, ["u"], ["u"]⟩, vDevposts := ⟨none, [], []⟩,
    vHackathons := ⟨none, [], []⟩,
    memory := [("u", "hi".data)],
    crawlers := [.idle], parsers := [.work 0], log := [] }

/-- A page holding only a social-link marker line: extraction succeeds with
a non-empty `socialURLs` while `displayName` stays at its default. -/
def c9Mixed : String :=
  "<a target=\"_blank\" rel=\"nofollow\" href=\"https://t.co\">"

/-- A state with one parser mid-body on a live devpost task whose page is
cached. -/
def c9WorkSt2 : St :=
  { qHacker := [], qDevpost := [], qHackathon := [], qTodo := [],
    uHacker := 0, uDevpost := 0, uHackathon := 0, uTodo := 1,
    heap := [⟨"https://www.devpost.com/software/p1", Folder.devposts, "p1",
      NO_FROM, QId.todo⟩],
    vHackers := ⟨none, [], []⟩, vDevposts := ⟨none, ["p1"], ["p1"]⟩,
    vHackathons := ⟨none, [], []⟩,
    memory := [("p1", "hi".data)],
    crawlers := [.idle], parsers := [.work 0], log := [] }

theorem C9_graceful_degradation_witness :
    parse_hacker_extract "u" "plain page".data =
      Except.ok ⟨"undefined".data, [], []⟩ ∧
    parse_devpost_extract "plain page".data =
      Except.ok ⟨"undefined".data, "undefined".data, []⟩ ∧
    (⟨"undefined".data, ["https://t.co".data], []⟩ :
      HackerInfo).displayName = "undefined".data ∧
    (⟨"undefined".data, "undefined".data, []⟩ : DevpostInfo).hackers = [] ∧
    (Event.nodeHacker "u" ∈ (parseStep c9WorkSt 0).log ∧
      Event.ackP 0 QId.todo 0 ∈ (parseStep c9WorkSt 0).log ∧
      (parseStep c9WorkSt 0).parsers.get? 0 = some PPc.idle) ∧
    (Event.nodeDevpost "p1" ∈ (parseStep c9WorkSt2 0).log ∧
      Event.ackP 0 QId.todo 0 ∈ (parseStep c9WorkSt2 0).log ∧
      (parseStep c9WorkSt2 0).parsers.get? 0 = some PPc.idle) :=
  ⟨C9_graceful_degradation.1 "u" "plain page".data (by decide),
   C9_graceful_degradation.2.1 "plain page".data (by decide),
   (C9_graceful_degradation.2.2.1 "u" c9Mixed.data
     ⟨"undefined".data, ["https://t.co".data], []⟩ rfl).1 (by decide),
   (C9_graceful_degradation.2.2.2.1 "plain page".data
     ⟨"undefined".data, "undefined".data, []⟩ rfl).1 (by decide),
   C9_graceful_degradation.2.2.2.2.1 c9WorkSt 0 0
     ⟨"https://www.devpost.com/u", Folder.hackers, "u", NO_FROM, QId.todo⟩
     "hi".data ⟨"undefined".data, [], []⟩
     (by decide) (by decide) rfl (by decide) rfl (by decide),
   C9_graceful_degradation.2.2.2.2.2 c9WorkSt2 0 0
     ⟨"https://www.devpost.com/software/p1", Folder.devposts, "p1",
       NO_FROM, QId.todo⟩
     "hi".data ⟨"undefined".data, "undefined".data, []⟩
     (by decide) (by decide) rfl (by decide) rfl (by decide)⟩

/-! ## C1 — at-most-once fetch and push -/

theorem vOf_setC (s : St) (i : Nat) (pc : CPc) (f : Folder) :
    vOf (setC s i pc) f = vOf s f := by cases f <;> rfl

theorem uOf_setC (s : St) (i : Nat) (pc : CPc) (q : QId) :
    uOf (setC s i pc) q = uOf s q := by cases q <;> rfl

/-- C1: deduplication works across every interleaving — each (folder, name)
is fetched at most once and pushed onto the to-parse queue at most once over
any run from the initial state; and a crawler in the critical section whose
task name is already in both `local` and `now` does nothing but advance its
program counter across the two membership tests: no fetch, no push, no set
insert, no log entry, no state change at all beyond the counter. -/
theorem C1_dedup_atomic :
    (∀ (fetch : String → Option Str) (readFile : Folder → String → Str)
        (qh qd qk : List QItem) (lH lD lK : List String)
        (steps : List Step) (f : Folder) (n : String),
      countFetch
        (run fetch readFile (initSt qh qd qk lH lD lK) steps).log f n ≤ 1 ∧
      countPushName
        (run fetch readFile (initSt qh qd qk lH lD lK) steps).log f n ≤ 1) ∧
    (∀ (fetch : String → Option Str) (readFile : Folder → String → Str)
        (s : St) (i tid : Nat) (t : TaskObj),
      s.crawlers.get? i = some (CPc.inCS tid) →
      s.heap.get? tid = some t →
      t.name ∈ (vOf s t.folder).localS →
      t.name ∈ (vOf s t.folder).nowS →
      crawlStep fetch readFile (crawlStep fetch readFile s i) i =
        setC s i (CPc.ack tid)) := by
  constructor
  · intro fetch readFile qh qd qk lH lD lK steps f n
    have hinv := invRun fetch readFile _ steps (invInit qh qd qk lH lD lK)
    exact ⟨hinv.fetchOnce f n, hinv.pushOnce f n⟩
  · intro fetch readFile s i tid t hc ht h1 h2
    have hlen : i < s.crawlers.length := (List.get?_eq_some.mp hc).1
    have hstep1 : crawlStep fetch readFile s i =
        setC s i (CPc.checkNow tid) := by
      unfold crawlStep
      rw [hc]
      show (match s.heap.get? tid with
        | none => s
        | some t =>
          if t.name ∈ (vOf s t.folder).localS then setC s i (.checkNow tid)
          else setC s i (.doFetch tid)) = setC s i (CPc.checkNow tid)
      rw [ht]
      show (if t.name ∈ (vOf s t.folder).localS
        then setC s i (.checkNow tid)
        else setC s i (.doFetch tid)) = setC s i (CPc.checkNow tid)
      rw [if_pos h1]
    have hc2 : (setC s i (CPc.checkNow tid)).crawlers.get? i =
        some (CPc.checkNow tid) := by
      simp only [setC]
      exact List.get?_set_eq_of_lt _ hlen
    have hstep2 : crawlStep fetch readFile (setC s i (CPc.checkNow tid)) i =
        setC (setC s i (CPc.checkNow tid)) i (CPc.ack tid) := by
      unfold crawlStep
      rw [hc2]
      show (match (setC s i (CPc.checkNow tid)).heap.get? tid with
        | none => setC s i (CPc.checkNow tid)
        | some t =>
          if t.name ∈ (vOf (setC s i (CPc.checkNow tid)) t.folder).nowS
          then setC (setC s i (CPc.checkNow tid)) i (.ack tid)
          else setC (setC s i (CPc.checkNow tid)) i (.enq tid)) =
        setC (setC s i (CPc.checkNow tid)) i (CPc.ack tid)
      have hh : (setC s i (CPc.checkNow tid)).heap.get? tid = some t := ht
      rw [hh]
      show (if t.name ∈ (vOf (setC s i (CPc.checkNow tid)) t.folder).nowS
        then setC (setC s i (CPc.checkNow tid)) i (.ack tid)
        else setC (setC s i (CPc.checkNow tid)) i (.enq tid)) =
        setC (setC s i (CPc.checkNow tid)) i (CPc.ack tid)
      rw [if_pos (by rw [vOf_setC]; exact h2)]
    rw [hstep1, hstep2]
    simp only [setC]
    rw [List.set_set]

/-- A state with one crawler in the critical section of an already fetched
and already enqueued hacker name. -/
def c1Repeat : St :=
  { qHacker := [], qDevpost := [], qHackathon := [], qTodo := [],
    uHacker := 1, uDevpost := 0, uHackathon := 0, uTodo := 0,
    heap := [⟨"https://www.devpost.com/alice", Folder.hackers, "alice",
      NO_FROM, QId.hacker⟩],
    vHackers := ⟨some 0, ["alice"], ["alice"]⟩, vDevposts := ⟨none, [], []⟩,
    vHackathons := ⟨none, [], []⟩, memory := [],
    crawlers := [CPc.inCS 0], parsers := [PPc.idle], log := [] }

theorem C1_dedup_atomic_witness :
    countFetch (run fetchSome readFile0 (initSt [] [] [] [] [] []) []).log
      Folder.hackers "alice" ≤ 1 ∧
    crawlStep fetchSome readFile0
        (crawlStep fetchSome readFile0 c1Repeat 0) 0 =
      setC c1Repeat 0 (CPc.ack 0) :=
  ⟨(C1_dedup_atomic.1 fetchSome readFile0 [] [] [] [] [] [] []
      Folder.hackers "alice").1,
   C1_dedup_atomic.2 fetchSome readFile0 c1Repeat 0 0
     ⟨"https://www.devpost.com/alice", Folder.hackers, "alice", NO_FROM,
       QId.hacker⟩
     (by decide) (by decide) (by decide) (by decide)⟩

/-! ## C10 — hackathon tasks in the parser -/

/-- Is this event a push of a hackathon task? -/
def pushHackP : Event → Bool
  | .push _ f _ => f == Folder.hackathons
  | _ => false

theorem pushAny_split (e : Event) :
    bNat (pushAnyP e) = bNat (pushOtherP e) + bNat (pushHackP e) := by
  cases e with
  | push tid f n =>
    cases hf : f == Folder.hackathons <;>
      simp [bNat, pushAnyP, pushOtherP, pushHackP, hf]
  | fetch f n => rfl
  | ackC i q b => rfl
  | ackP j q tid => rfl
  | printAdding f n => rfl
  | logNoTask i => rfl
  | driverQuit i => rfl
  | nodeHacker n => rfl
  | nodeDevpost n => rfl
  | edgeWrite h d => rfl

/-- To-parse pushes split into non-hackathon and hackathon pushes. -/
theorem countP_push_split (l : List Event) :
    countPushAll l = countPushOther l + l.countP pushHackP := by
  induction l with
  | nil => rfl
  | cons e rest ih =>
    unfold countPushAll countPushOther at ih ⊢
    rw [List.countP_cons, List.countP_cons, List.countP_cons]
    have he := pushAny_split e
    unfold bNat at he
    omega

theorem ackTodo_pointwise (e : Event) :
    bNat (ackTodoP e) ≤ bNat (ackCTodoP e) + bNat (ackPP e) := by
  cases e with
  | ackC i q b =>
    cases hq : q == QId.todo <;>
      simp [bNat, ackTodoP, ackCTodoP, ackPP, hq]
  | ackP j q tid =>
    cases hq : q == QId.todo <;>
      simp [bNat, ackTodoP, ackCTodoP, ackPP, hq]
  | fetch f n => exact Nat.zero_le _
  | push tid f n => exact Nat.zero_le _
  | printAdding f n => exact Nat.zero_le _
  | logNoTask i => exact Nat.zero_le _
  | driverQuit i => exact Nat.zero_le _
  | nodeHacker n => exact Nat.zero_le _
  | nodeDevpost n => exact Nat.zero_le _
  | edgeWrite h d => exact Nat.zero_le _

/-- Successful `task_done`s on `q_todo` are crawler-side hits on `q_todo`
plus parser-side acknowledgements. -/
theorem countAckTodo_le (l : List Event) :
    countAckTodo l ≤ countAckCTodo l + countAckPAll l := by
  induction l with
  | nil => exact le_rfl
  | cons e rest ih =>
    unfold countAckTodo countAckCTodo countAckPAll at ih ⊢
    rw [List.countP_cons, List.countP_cons, List.countP_cons]
    have he := ackTodo_pointwise e
    unfold bNat at he
    omega

/-- A schedule pushing a hackathon task, hijacking its callback through the
parser's `get_parser_task`, acknowledging `q_todo` from the crawler, and
running the parser body on it. -/
def c10Trace : List Step :=
  [.crawl 0, .crawl 0, .crawl 0, .crawl 0, .crawl 0, .crawl 0, .parse 0,
   .crawl 0, .parse 0]

def c10Final : St :=
  run fetchSome readFile0
    (initSt [] [] [QItem.item ⟨"hackmit", none, none⟩] [] [] []) c10Trace

/-- C10 counterexample: the parser-side part of the claim holds (cache
entry dropped, no extractor, no write, no parser acknowledgement), but
"joining that queue can never complete" is false: the crawler's own hijacked
line-112 callback can hit `q_todo`, driving its unfinished count to zero
even though a hackathon task went through it. -/
theorem C10_counterexample :
    Event.push 0 Folder.hackathons "hackmit" ∈ c10Final.log ∧
    c10Final.uTodo = 0 ∧
    c10Final.parsers.get? 0 = some PPc.idle ∧
    c10Final.memory = [] ∧
    countAckPAll c10Final.log = 0 ∧
    countAckCTodo c10Final.log = 1 := by
  decide

/-- C10 (amended): a parser pulling a hackathon task deletes the cached page
and does nothing else — the whole step is `memory` erasure plus the return
to the loop head (no extractor, no graph write, no enqueue, no
acknowledgement, folder branch commented out at lines 285-286); and as long
as no crawler-side `task_done` has hit `q_todo` (the hijack of C2), a
hackathon push does leave `q_todo`'s unfinished count positive forever, so
its `join` cannot complete. -/
theorem C10_hackathon_tasks :
    (∀ (s : St) (j tid : Nat) (t : TaskObj) (content : Str),
      s.parsers.get? j = some (PPc.work tid) →
      s.heap.get? tid = some t →
      t.folder = Folder.hackathons →
      List.lookup t.name s.memory = some content →
      parseStep s j =
        setP { s with memory := merase s.memory t.name } j PPc.idle) ∧
    (∀ (fetch : String → Option Str) (readFile : Folder → String → Str)
        (qh qd qk : List QItem) (lH lD lK : List String)
        (steps : List Step) (tid : Nat) (n : String),
      Event.push tid Folder.hackathons n ∈
        (run fetch readFile (initSt qh qd qk lH lD lK) steps).log →
      countAckCTodo
        (run fetch readFile (initSt qh qd qk lH lD lK) steps).log = 0 →
      1 ≤ (run fetch readFile (initSt qh qd qk lH lD lK) steps).uTodo) := by
  constructor
  · intro s j tid t content hp ht hf hm
    unfold parseStep
    split
    · rename_i h; rw [hp] at h; simp at h
    · rename_i h; rw [hp] at h; simp at h
    · rename_i h; rw [hp] at h; simp at h
    rename_i tid0 h
    rw [hp] at h
    injection h with h
    injection h with h
    subst h
    split
    · rename_i h2; rw [ht] at h2; simp at h2
    rename_i t0 h2
    rw [ht] at h2
    injection h2 with h2
    subst h2
    split
    · rename_i h3; rw [hm] at h3; simp at h3
    rename_i content0 h3
    rw [hm] at h3
    injection h3 with h3
    subst h3
    split
    · rfl
    · rename_i hfold; rw [hf] at hfold; simp at hfold
    · rename_i hfold; rw [hf] at hfold; simp at hfold
  · intro fetch readFile qh qd qk lH lD lK steps tid n hmem hack0
    have hinv := invRun fetch readFile _ steps (invInit qh qd qk lH lD lK)
    have h1 := hinv.uTodoEq
    have h2 := hinv.ackPBound
    have h3 := countAckTodo_le
      (run fetch readFile (initSt qh qd qk lH lD lK) steps).log
    have h4 := countP_push_split
      (run fetch readFile (initSt qh qd qk lH lD lK) steps).log
    have h5 : 0 < (run fetch readFile
        (initSt qh qd qk lH lD lK) steps).log.countP pushHackP :=
      List.countP_pos.mpr ⟨_, hmem, rfl⟩
    rw [hack0] at h3
    omega

/-- A state with one parser mid-body on a live hackathon task whose page is
cached. -/
def c10WorkSt : St :=
  { qHacker := [], qDevpost := [], qHackathon := [], qTodo := [],
    uHacker := 0, uDevpost := 0, uHackathon := 0, uTodo := 1,
    heap := [⟨"https://www.hackmit.devpost.com", Folder.hackathons,
      "hackmit", NO_FROM, QId.todo⟩],
    vHackers := ⟨none, [], []⟩, vDevposts := ⟨none, [], []⟩,
    vHackathons := ⟨none, ["hackmit"], ["hackmit"]⟩,
    memory := [("hackmit", ['p'])],
    crawlers := [CPc.idle], parsers := [PPc.work 0], log := [] }

theorem C10_hackathon_tasks_witness :
    parseStep c10WorkSt 0 =
      setP { c10WorkSt with memory := merase c10WorkSt.memory "hackmit" } 0
        PPc.idle ∧
    1 ≤ (run fetchSome readFile0
      (initSt [] [] [QItem.item ⟨"hackmit", none, none⟩] [] [] [])
      [.crawl 0, .crawl 0, .crawl 0, .crawl 0, .crawl 0, .crawl 0]).uTodo :=
  ⟨C10_hackathon_tasks.1 c10WorkSt 0 0
     ⟨"https://www.hackmit.devpost.com", Folder.hackathons, "hackmit",
       NO_FROM, QId.todo⟩ ['p']
     (by decide) (by decide) rfl (by decide),
   C10_hackathon_tasks.2 fetchSome readFile0 [] []
     [QItem.item ⟨"hackmit", none, none⟩] [] [] []
     [.crawl 0, .crawl 0, .crawl 0, .crawl 0, .crawl 0, .crawl 0] 0
     "hackmit" (by decide) (by decide)⟩

/-! ## C2 — the done_callback overwrite race -/

/-- A schedule interleaving one crawler's full hacker-task pass with one
parser: the parser's `get_parser_task` (which overwrites the shared dict's
`'done_callback'` with `q_todo.task_done`, line 126) runs between the
crawler's `q_todo.put` (line 108) and the crawler's
`task['done_callback']()` (line 112). -/
def c2Trace : List Step :=
  [.crawl 0, .crawl 0, .crawl 0, .crawl 0, .crawl 0, .crawl 0, .parse 0,
   .crawl 0, .crawl 0, .parse 0]

def c2Final : St :=
  run fetchSome readFile0
    (initSt [QItem.item ⟨"alice", none, none⟩] [] [] [] [] []) c2Trace

/-- C2: exactly-once acknowledgement fails.  Under the above interleaving
the crawler's line-112 callback reads the overwritten dict entry and hits
`q_todo` (crawler-side ack with queue `todo`), so `q_todo`'s unfinished
count drops to zero early while `q_hacker`'s stays 1 forever — its queue is
empty and its crawler idle, so `q_hacker.join()` can never return — and the
parser's own `task_done` then raises `ValueError`, killing the parser. -/
theorem C2_callback_race :
    Event.ackC 0 QId.todo true ∈ c2Final.log ∧
    countAckCTodo c2Final.log = 1 ∧
    c2Final.uTodo = 0 ∧
    c2Final.uHacker = 1 ∧
    c2Final.qHacker = [] ∧
    c2Final.crawlers.get? 0 = some CPc.idle ∧
    c2Final.parsers.get? 0 = some PPc.dead := by
  decide

/-! ## C5 — acknowledgement vs. the lock -/

def c5Trace : List Step := List.replicate 7 (Step.crawl 0)

def c5Final : St :=
  run fetchSome readFile0
    (initSt [QItem.item ⟨"alice", none, none⟩] [] [] [] [] []) c5Trace

/-- C5 counterexample: the crawler's `task['done_callback']()` (line 112)
sits inside the `with` block: after a full uninterleaved task pass the
acknowledgement event records the per-type lock as held, the lock is still
taken right after it, and the crawler has yet to leave the exclusive
region. -/
theorem C5_counterexample :
    Event.ackC 0 QId.hacker true ∈ c5Final.log ∧
    c5Final.vHackers.lock = some 0 ∧
    c5Final.crawlers.get? 0 = some (CPc.unlock 0) := by
  decide

/-- C5 (amended): the acknowledgement happens inside the exclusive region,
not after it — in every run from the initial state, every crawler-side
`done_callback` ran with the task type's lock held. -/
theorem C5_ack_inside_lock (fetch : String → Option Str)
    (readFile : Folder → String → Str) (qh qd qk : List QItem)
    (lH lD lK : List String) (steps : List Step) (i : Nat) (q : QId)
    (b : Bool)
    (h : Event.ackC i q b ∈
      (run fetch readFile (initSt qh qd qk lH lD lK) steps).log) :
    b = true :=
  (invRun fetch readFile _ steps (invInit qh qd qk lH lD lK)).ackHeld i q b h

theorem C5_ack_inside_lock_witness : (true : Bool) = true :=
  C5_ack_inside_lock fetchSome readFile0
    [QItem.item ⟨"alice", none, none⟩] [] [] [] [] [] c5Trace 0 QId.hacker
    true (by decide)

/-! ## C6 — fetch failure -/

/-- The devpost task of the C6 runs. -/
def tC6 : TaskObj :=
  ⟨"https://www.devpost.com/software/proj2", Folder.devposts, "proj2",
    NO_FROM, QId.devpost⟩

/-- Three steps into a failing-driver run: the crawler holds the devposts
lock and is about to fetch. -/
def c6Mid : St :=
  run fetchNone readFile0
    (initSt [] [QItem.item ⟨"proj2", none, none⟩] [] [] [] [])
    [.crawl 0, .crawl 0, .crawl 0]

def c6Final : St := crawlStep fetchNone readFile0 c6Mid 0

/-- C6 counterexample: after a driver error the lock is released and the
name is not marked fetched, but nothing about the failure is logged — the
whole log is the line-95 progress print — the crawler thread itself dies,
and the task is never acknowledged (its queue's unfinished count stays 1). -/
theorem C6_counterexample :
    c6Final.crawlers.get? 0 = some CPc.dead ∧
    c6Final.vDevposts.lock = none ∧
    "proj2" ∉ c6Final.vDevposts.localS ∧
    c6Final.log = [Event.printAdding Folder.devposts "proj2"] ∧
    c6Final.uDevpost = 1 := by
  decide

/-- C6 (amended): when the fetch driver fails while the crawler holds the
per-type lock, the `with` block's unwinding releases the lock and the name
stays out of `local`, and no other worker is touched (their program
counters, the parser pool, `q_todo` are unchanged) — but the failure is not
logged (only the progress print is appended), the crawler thread itself
dies, and the task is never acknowledged. -/
theorem C6_fetch_failure (fetch : String → Option Str)
    (readFile : Folder → String → Str) (s : St) (i tid : Nat) (t : TaskObj)
    (hc : s.crawlers.get? i = some (CPc.doFetch tid))
    (ht : s.heap.get? tid = some t)
    (hfail : fetch t.url = none) :
    (vOf (crawlStep fetch readFile s i) t.folder).lock = none ∧
    (vOf (crawlStep fetch readFile s i) t.folder).localS =
      (vOf s t.folder).localS ∧
    (crawlStep fetch readFile s i).crawlers.get? i = some CPc.dead ∧
    (∀ i2, i2 ≠ i → (crawlStep fetch readFile s i).crawlers.get? i2 =
      s.crawlers.get? i2) ∧
    (crawlStep fetch readFile s i).parsers = s.parsers ∧
    (crawlStep fetch readFile s i).log =
      Event.printAdding t.folder t.name :: s.log ∧
    (crawlStep fetch readFile s i).qTodo = s.qTodo ∧
    uOf (crawlStep fetch readFile s i) t.doneCallback =
      uOf s t.doneCallback := by
  have hlen : i < s.crawlers.length := (List.get?_eq_some.mp hc).1
  have hv1 : ∀ f, vOf { s with
      log := Event.printAdding t.folder t.name :: s.log } f = vOf s f := by
    intro f; cases f <;> rfl
  unfold crawlStep
  split
  · rename_i h; rw [hc] at h; simp at h
  · rename_i h; rw [hc] at h; simp at h
  · rename_i h; rw [hc] at h; simp at h
  · rename_i h; rw [hc] at h; simp at h
  · rename_i tid0 h; rw [hc] at h; simp at h
  · rename_i tid0 h; rw [hc] at h; simp at h
  · rename_i tid0 h
    rw [hc] at h
    injection h with h
    injection h with h
    subst h
    split
    · rename_i h2; rw [ht] at h2; simp at h2
    rename_i t0 h2
    rw [ht] at h2
    injection h2 with h2
    subst h2
    split
    · refine ⟨?_, ?_, ?_, ?_, ?_, ?_, ?_, ?_⟩
      · rw [vOf_setC, vOf_setV, if_pos rfl]
      · rw [vOf_setC, vOf_setV, if_pos rfl]
        show (vOf { s with
          log := Event.printAdding t.folder t.name :: s.log } t.folder).localS =
          (vOf s t.folder).localS
        rw [hv1]
      · simp only [setC, crawlers_setV]
        exact List.get?_set_eq_of_lt _ hlen
      · intro i2 hne
        simp only [setC, crawlers_setV]
        exact List.get?_set_ne _ _ fun hx => hne hx.symm
      · simp only [setC, parsers_setV]
      · simp only [setC, log_setV]
      · simp only [setC, qTodo_setV]
      · rw [uOf_setC, uOf_setV]
        rcases t.doneCallback with _ | _ | _ | _ <;> rfl
    · rename_i content hok; rw [hfail] at hok; simp at hok
  · rename_i tid0 h; rw [hc] at h; simp at h
  · rename_i tid0 h; rw [hc] at h; simp at h
  · rename_i tid0 h; rw [hc] at h; simp at h
  · rename_i tid0 h; rw [hc] at h; simp at h

theorem C6_fetch_failure_witness :
    (vOf (crawlStep fetchNone readFile0 c6Mid 0) tC6.folder).lock = none ∧
    (vOf (crawlStep fetchNone readFile0 c6Mid 0) tC6.folder).localS =
      (vOf c6Mid tC6.folder).localS ∧
    (crawlStep fetchNone readFile0 c6Mid 0).crawlers.get? 0 =
      some CPc.dead ∧
    (∀ i2, i2 ≠ 0 →
      (crawlStep fetchNone readFile0 c6Mid 0).crawlers.get? i2 =
        c6Mid.crawlers.get? i2) ∧
    (crawlStep fetchNone readFile0 c6Mid 0).parsers = c6Mid.parsers ∧
    (crawlStep fetchNone readFile0 c6Mid 0).log =
      Event.printAdding tC6.folder tC6.name :: c6Mid.log ∧
    (crawlStep fetchNone readFile0 c6Mid 0).qTodo = c6Mid.qTodo ∧
    uOf (crawlStep fetchNone readFile0 c6Mid 0) tC6.doneCallback =
      uOf c6Mid tC6.doneCallback :=
  C6_fetch_failure fetchNone readFile0 c6Mid 0 0 tC6 (by decide) (by decide)
    rfl

/-! ## C7 — router priority -/

/-- C7: `get_crawler_task` polls hacker, then project, then hackathon; it
returns `NO_TASK` exactly when all three queues are empty; a non-empty
hacker queue always answers the call (with `Stop` or a hacker task); a
project task is returned only if the hacker queue was empty; a hackathon
task only if both others were empty. -/
theorem C7_router_priority :
    (∀ qh qd qk : List QItem,
      (get_crawler_task qh qd qk).1 = CrawlResult.noTask ↔
        qh = [] ∧ qd = [] ∧ qk = []) ∧
    (∀ qh qd qk : List QItem, ∀ t, qh ≠ [] →
      (get_crawler_task qh qd qk).1 = CrawlResult.task t →
      t.folder = Folder.hackers ∧ t.doneCallback = QId.hacker) ∧
    (∀ qh qd qk : List QItem, ∀ t,
      (get_crawler_task qh qd qk).1 = CrawlResult.task t →
      t.folder = Folder.devposts → qh = []) ∧
    (∀ qh qd qk : List QItem, ∀ t,
      (get_crawler_task qh qd qk).1 = CrawlResult.task t →
      t.folder = Folder.hackathons → qh = [] ∧ qd = []) := by
  refine ⟨?_, ?_, ?_, ?_⟩
  · intro qh qd qk
    rcases qh with _ | ⟨h, qh⟩
    · rcases qd with _ | ⟨d, qd⟩
      · rcases qk with _ | ⟨k, qk⟩
        · simp [get_crawler_task]
        · cases k <;> simp [get_crawler_task]
      · cases d <;> simp [get_crawler_task]
    · cases h <;> simp [get_crawler_task]
  · intro qh qd qk t hne ht
    rcases qh with _ | ⟨h, qh⟩
    · exact absurd rfl hne
    · cases h <;> simp [get_crawler_task] at ht <;> simp [← ht]
  · intro qh qd qk t ht hf
    rcases qh with _ | ⟨h, qh⟩
    · rfl
    · cases h <;> simp [get_crawler_task] at ht
      · rw [← ht] at hf
        cases hf
  · intro qh qd qk t ht hf
    rcases qh with _ | ⟨h, qh⟩
    · rcases qd with _ | ⟨d, qd⟩
      · exact ⟨rfl, rfl⟩
      · cases d <;> simp [get_crawler_task] at ht
        · rw [← ht] at hf
          cases hf
    · cases h <;> simp [get_crawler_task] at ht
      · rw [← ht] at hf
        cases hf

/-! ## C3 — sentinel propagation -/

/-- C3 counterexample: only the hacker-queue branch of `get_crawler_task`
compares the drained value against `NULL_CMD` (line 26); a sentinel drawn
from the project or hackathon queue is treated as a task dict, and
subscripting the int raises `TypeError` instead of returning `Stop` — the
receiving crawler dies without `driver.quit()`. -/
theorem C3_counterexample :
    (get_crawler_task [] [QItem.sentinel] []).1 = CrawlResult.typeErr ∧
    (get_crawler_task [] [QItem.sentinel] []).1 ≠ CrawlResult.stop ∧
    (get_crawler_task [] [] [QItem.sentinel]).1 = CrawlResult.typeErr ∧
    (get_crawler_task [] [] [QItem.sentinel]).1 ≠ CrawlResult.stop ∧
    (crawlStep fetchSome readFile0
        (initSt [] [QItem.sentinel] [] [] [] []) 0).crawlers.get? 0 =
      some CPc.dead ∧
    Event.driverQuit 0 ∉
      (crawlStep fetchSome readFile0
        (initSt [] [QItem.sentinel] [] [] [] []) 0).log := by
  decide

/-- C3 (amended): the sentinel propagates `Stop` only when drawn from the
hacker queue — there a sentinel at the head yields `Stop` and the idle
crawler that receives it stops after releasing its fetch driver
(`driver.quit()` logged); a sentinel drawn from the project or hackathon
queue instead raises `TypeError` (no `Stop`, no driver release). -/
theorem C3_stop_propagation :
    (∀ r qd qk : List QItem,
      (get_crawler_task (QItem.sentinel :: r) qd qk).1 = CrawlResult.stop) ∧
    (∀ (fetch : String → Option Str) (readFile : Folder → String → Str)
        (s : St) (i : Nat) (qh' : List QItem),
      s.crawlers.get? i = some CPc.idle →
      s.qHacker = QItem.sentinel :: qh' →
      (crawlStep fetch readFile s i).crawlers.get? i = some CPc.stopped ∧
      Event.driverQuit i ∈ (crawlStep fetch readFile s i).log) ∧
    (∀ r qk : List QItem,
      (get_crawler_task [] (QItem.sentinel :: r) qk).1 =
        CrawlResult.typeErr) ∧
    (∀ r : List QItem,
      (get_crawler_task [] [] (QItem.sentinel :: r)).1 =
        CrawlResult.typeErr) := by
  refine ⟨fun r qd qk => rfl, ?_, fun r qk => rfl, fun r => rfl⟩
  intro fetch readFile s i qh' hc hq
  have hlen : i < s.crawlers.length := (List.get?_eq_some.mp hc).1
  unfold crawlStep
  rw [hc, hq]
  exact ⟨List.get?_set_eq_of_lt _ hlen, List.mem_cons_self _ _⟩

theorem C3_stop_propagation_witness :
    (crawlStep fetchSome readFile0
        (initSt [QItem.sentinel] [] [] [] [] []) 0).crawlers.get? 0 =
      some CPc.stopped ∧
    Event.driverQuit 0 ∈
      (crawlStep fetchSome readFile0
        (initSt [QItem.sentinel] [] [] [] [] []) 0).log :=
  C3_stop_propagation.2.1 fetchSome readFile0
    (initSt [QItem.sentinel] [] [] [] [] []) 0 [] (by decide) rfl

/-! ## C4 — graph-write idempotence -/

/-- A store already holding one hacker and one devpost node. -/
def g0 : GraphStore :=
  { hackerNodes := [⟨"alice", "Alice".data, []⟩],
    devpostNodes := [⟨"proj1", "undefined".data, "undefined".data⟩],
    edges := [] }

/-- C4 counterexample: hackathon.py's `generate_connection` (lines 192-199)
uses `CREATE` on the relationship pattern, so writing the same
(hacker, devpost) pair twice appends a duplicate `CONTRIBUTED_TO` edge —
the store after two identical calls differs from the store after one. -/
theorem C4_counterexample :
    generate_connection_hackathon
        (generate_connection_hackathon g0 "alice" "proj1") "alice" "proj1" ≠
      generate_connection_hackathon g0 "alice" "proj1" ∧
    (generate_connection_hackathon
        (generate_connection_hackathon g0 "alice" "proj1")
        "alice" "proj1").edges =
      [("alice", "proj1"), ("alice", "proj1")] := by
  decide

/-- C4 (amended): main.py's writes are idempotent — the two `MERGE` node
writes and `generate_connection`'s `MATCH … MERGE` edge write each leave the
store unchanged when repeated with identical arguments; the claim fails only
for hackathon.py's `CREATE` variant (see the counterexample). -/
theorem C4_upsert_idempotent :
    (∀ g n, mergeHackerNode (mergeHackerNode g n) n = mergeHackerNode g n) ∧
    (∀ g n, mergeDevpostNode (mergeDevpostNode g n) n = mergeDevpostNode g n) ∧
    (∀ g h d, generate_connection (generate_connection g h d) h d =
      generate_connection g h d) := by
  refine ⟨?_, ?_, ?_⟩
  · intro g n
    by_cases h : n ∈ g.hackerNodes
    · simp [mergeHackerNode, h]
    · have h1 : mergeHackerNode g n =
          { g with hackerNodes := g.hackerNodes ++ [n] } := by
        simp [mergeHackerNode, h]
      rw [h1]
      simp [mergeHackerNode, List.mem_append]
  · intro g n
    by_cases h : n ∈ g.devpostNodes
    · simp [mergeDevpostNode, h]
    · have h1 : mergeDevpostNode g n =
          { g with devpostNodes := g.devpostNodes ++ [n] } := by
        simp [mergeDevpostNode, h]
      rw [h1]
      simp [mergeDevpostNode, List.mem_append]
  · intro g h d
    by_cases hm : ((g.hackerNodes.any fun n => n.name == h) &&
        (g.devpostNodes.any fun x => x.name == d)) = true
    · by_cases he : (h, d) ∈ g.edges
      · simp [generate_connection, hm, he]
      · have h1 : generate_connection g h d =
            { g with edges := g.edges ++ [(h, d)] } := by
          simp [generate_connection, hm, he]
        rw [h1]
        simp [generate_connection, hm, List.mem_append]
    · simp [generate_connection, hm]

/-! ## C8 — crash snapshot -/

/-- C8: on abnormal termination (`OSError` or `KeyboardInterrupt`) the
pickled snapshot holds, for each of the three entity types, exactly the
`local` and `now` name sets as they stood at interruption, in that order,
with the `lock` key deleted — no lock object appears anywhere in the
serialized data; normal shutdown produces no snapshot. -/
theorem C8_snapshot_contents :
    (∀ (s : St) (term : Termination), term ≠ Termination.normal →
      shutdownSnapshot s term = some
        [("hackers", [("local", VisitedVal.namesV s.vHackers.localS),
                      ("now", VisitedVal.namesV s.vHackers.nowS)]),
         ("devposts", [("local", VisitedVal.namesV s.vDevposts.localS),
                       ("now", VisitedVal.namesV s.vDevposts.nowS)]),
         ("hackathons", [("local", VisitedVal.namesV s.vHackathons.localS),
                         ("now", VisitedVal.namesV s.vHackathons.nowS)])] ∧
      ∀ entry ∈ snapshotOf s, ∀ p ∈ entry.2, p.2 ≠ VisitedVal.lockV) ∧
    (∀ s : St, shutdownSnapshot s Termination.normal = none) := by
  refine ⟨?_, fun s => rfl⟩
  intro s term hterm
  constructor
  · cases term with
    | normal => exact absurd rfl hterm
    | osError => rfl
    | keyboardInterrupt => rfl
  · intro entry he p hp
    simp [snapshotOf, visitedDict, delKey] at he
    rcases he with h | h | h <;> subst h <;> simp at hp <;>
      rcases hp with h | h <;> simp [h]

theorem C8_snapshot_contents_witness :
    shutdownSnapshot (initSt [] [] [] ["a"] [] []) Termination.osError =
      some
        [("hackers", [("local", VisitedVal.namesV ["a"]),
                      ("now", VisitedVal.namesV [])]),
         ("devposts", [("local", VisitedVal.namesV []),
                       ("now", VisitedVal.namesV [])]),
         ("hackathons", [("local", VisitedVal.namesV []),
                         ("now", VisitedVal.namesV [])])] :=
  (C8_snapshot_contents.1 (initSt [] [] [] ["a"] [] [])
    Termination.osError (by decide)).1

theorem C7_router_priority_witness :
    ((get_crawler_task [] [] []).1 = CrawlResult.noTask ↔
      ([] : List QItem) = [] ∧ ([] : List QItem) = [] ∧
      ([] : List QItem) = []) ∧
    (([] : List QItem) = [] ∧ ([] : List QItem) = []) :=
  ⟨C7_router_priority.1 [] [] [],
   C7_router_priority.2.2.2 [] [] [.item ⟨"h", none, none⟩]
     ⟨"https://www.h.devpost.com", .hackathons, "h", NO_FROM, .hackathon⟩
     (by decide) rfl⟩

end HackerStats
